import Mathlib

/-!
# Verification of the MIDI-Engineer core annotation algorithms

Shallow embedding of the three core components of the repository —
the Shadow Quantizer (`components/services/shadowQuantizer.ts`), the
Voice Distributor (`components/services/midiVoices.ts`) and the
Ornament Detector (`components/services/ornamentDetector.ts`) — together
with theorems settling the specification claims about them.

Modelling conventions, chosen once and used throughout:

* JavaScript numbers are modelled exactly: tick values and pitches are
  integers (`ℤ`), cost/penalty arithmetic is exact rational arithmetic
  over the executable fraction type `Frac` below (numerator/denominator
  pairs with the denominator kept positive by construction; the values
  are never inspected for representation equality by the algorithms,
  only compared with `≤`/`<`, so normalization is unnecessary).  All
  constants appearing in the source are small decimal fractions, and
  every comparison the algorithms make at the inputs used here is exact.
* `Math.round` is `⌊x + 1/2⌋`, which agrees with JavaScript
  `Math.round` on all finite inputs (including negatives).
* `Array.prototype.sort` with a numeric comparator `cmp` is a stable
  sort by the total preorder `cmp a b ≤ 0`; it is modelled by the stable
  insertion sort `sortBy` below.
* `Map`/`Set` iteration order (insertion order) is modelled by
  first-occurrence association lists (`bumpCount`, `uniqueFirst`).
* The per-note `explanation` / cost-log strings produced by the Voice
  Distributor and the `voiceIndex` in-place annotations are display-only
  (they are written but never read back by any of the algorithms), so
  they are not carried by the embedding; note identity is carried by an
  explicit index (`VNote.idx`), matching JavaScript object identity in
  the `assignedNotes` set.
-/

/-! ## Exact executable rational arithmetic -/

/-- An exact, executable rational number: `num / den`.  Every operation
below keeps `den` positive, so the order relation can compare by
cross-multiplication.  Values are deliberately not normalized — the
algorithms modelled here never branch on representation equality of
non-integer quantities. -/
structure Frac where
  num : ℤ
  den : ℤ
deriving DecidableEq, Repr

namespace Frac

/-- Smart constructor: flip signs so that a nonzero denominator input
comes out positive. -/
def make (n d : ℤ) : Frac := if d < 0 then ⟨-n, -d⟩ else ⟨n, d⟩

/-- Embed an integer. -/
def ofInt (n : ℤ) : Frac := ⟨n, 1⟩

protected def add (x y : Frac) : Frac :=
  make (x.num * y.den + y.num * x.den) (x.den * y.den)

protected def sub (x y : Frac) : Frac :=
  make (x.num * y.den - y.num * x.den) (x.den * y.den)

protected def mul (x y : Frac) : Frac := make (x.num * y.num) (x.den * y.den)

protected def div (x y : Frac) : Frac := make (x.num * y.den) (x.den * y.num)

protected def neg (x : Frac) : Frac := ⟨-x.num, x.den⟩

/-- `x ≤ y` by cross-multiplication (correct whenever both denominators
are positive, which every operation preserves). -/
protected def le (x y : Frac) : Prop := x.num * y.den ≤ y.num * x.den

/-- `x < y` by cross-multiplication. -/
protected def lt (x y : Frac) : Prop := x.num * y.den < y.num * x.den

instance : Add Frac := ⟨Frac.add⟩
instance : Sub Frac := ⟨Frac.sub⟩
instance : Mul Frac := ⟨Frac.mul⟩
instance : Div Frac := ⟨Frac.div⟩
instance : Neg Frac := ⟨Frac.neg⟩
instance : LE Frac := ⟨Frac.le⟩
instance : LT Frac := ⟨Frac.lt⟩
instance : IntCast Frac := ⟨ofInt⟩
instance : NatCast Frac := ⟨fun n => ofInt n⟩
instance (n : ℕ) : OfNat Frac n := ⟨ofInt n⟩

instance (x y : Frac) : Decidable (x ≤ y) :=
  inferInstanceAs (Decidable (x.num * y.den ≤ y.num * x.den))

instance (x y : Frac) : Decidable (x < y) :=
  inferInstanceAs (Decidable (x.num * y.den < y.num * x.den))

/-- JavaScript `Math.max` on numbers. -/
protected def max (x y : Frac) : Frac := if x ≤ y then y else x

/-- JavaScript `Math.min` on numbers. -/
protected def min (x y : Frac) : Frac := if x ≤ y then x else y

/-- JavaScript `Math.abs`. -/
protected def abs (x : Frac) : Frac := ⟨|x.num|, x.den⟩

/-- Floor of a fraction (exact for positive denominators). -/
protected def floor (x : Frac) : ℤ := x.num.fdiv x.den

theorem le_def (x y : Frac) : x ≤ y ↔ x.num * y.den ≤ y.num * x.den := Iff.rfl

theorem lt_def (x y : Frac) : x < y ↔ x.num * y.den < y.num * x.den := Iff.rfl

theorem intCast_num (n : ℤ) : (Int.cast n : Frac).num = n := rfl

theorem intCast_den (n : ℤ) : (Int.cast n : Frac).den = 1 := rfl

theorem intCast_add (x y : ℤ) :
    (Int.cast x : Frac) + (Int.cast y : Frac) = (Int.cast (x + y) : Frac) := by
  show Frac.add (ofInt x) (ofInt y) = ofInt (x + y)
  unfold Frac.add make ofInt
  norm_num

theorem intCast_le_iff (z : ℤ) (t : Frac) :
    (Int.cast z : Frac) ≤ t ↔ z * t.den ≤ t.num := by
  rw [le_def]
  constructor <;> intro h <;> simpa [intCast_num, intCast_den] using h

theorem intCast_le_intCast (x y : ℤ) :
    (Int.cast x : Frac) ≤ (Int.cast y : Frac) ↔ x ≤ y := by
  rw [le_def]
  simp [intCast_num, intCast_den]

theorem le_total_frac (x y : Frac) : x ≤ y ∨ y ≤ x := by
  rw [le_def, le_def]
  omega

theorem le_trans_frac {x y z : Frac} (hx : 0 < x.den) (hy : 0 < y.den)
    (hz : 0 < z.den) (h1 : x ≤ y) (h2 : y ≤ z) : x ≤ z := by
  rw [le_def] at h1 h2 ⊢
  have h1' := mul_le_mul_of_nonneg_right h1 (le_of_lt hz)
  have h2' := mul_le_mul_of_nonneg_right h2 (le_of_lt hx)
  have hcombined : x.num * z.den * y.den ≤ z.num * x.den * y.den := by nlinarith
  exact le_of_mul_le_mul_right hcombined hy

end Frac

/-- Shorthand for building a fraction constant, e.g. `fr 3 20 = 0.15`. -/
def fr (n d : ℤ) : Frac := ⟨n, d⟩

/-- JavaScript `Math.round`: round half toward positive infinity. -/
def jsRound (x : Frac) : ℤ := Frac.floor (x + fr 1 2)

/-- Insert `a` into `l`, keeping every element `x` with `le x a = true`
before `a`.  Together with `sortBy` this is a stable sort, agreeing with
JavaScript `Array.prototype.sort` for consistent comparators. -/
def insertBy {α : Type} (le : α → α → Bool) (a : α) : List α → List α
  | [] => [a]
  | x :: xs => if le x a then x :: insertBy le a xs else a :: x :: xs

/-- Stable insertion sort: elements are inserted left to right, so ties
keep their original relative order. -/
def sortByAux {α : Type} (le : α → α → Bool) : List α → List α → List α
  | acc, [] => acc
  | acc, a :: as => sortByAux le (insertBy le a acc) as

/-- Model of JavaScript's stable `Array.prototype.sort`. -/
def sortBy {α : Type} (le : α → α → Bool) (l : List α) : List α :=
  sortByAux le [] l

/-- Keep the first occurrence of every element (JavaScript
`Array.from(new Set(...))`, whose iteration order is insertion order);
`seen` accumulates the elements already emitted. -/
def uniqueFirstAux {α : Type} [DecidableEq α] : List α → List α → List α
  | _, [] => []
  | seen, a :: as =>
      if a ∈ seen then uniqueFirstAux seen as
      else a :: uniqueFirstAux (seen ++ [a]) as

/-- Keep the first occurrence of every element. -/
def uniqueFirst {α : Type} [DecidableEq α] (l : List α) : List α :=
  uniqueFirstAux [] l

/-- The `clamp` helper of `midiVoices.ts`:
`Math.max(min, Math.min(max, value))`. -/
def jsClamp (value lo hi : Frac) : Frac := Frac.max lo (Frac.min hi value)

/-- Arithmetic mean, `0` on the empty list (`mean` in `midiVoices.ts`). -/
def listMean (values : List Frac) : Frac :=
  if values.length = 0 then 0
  else (values.foldl (fun s v => s + v) 0) / (Int.cast values.length : Frac)

/-! ## Data model (`types.ts`) -/

inductive RhythmFamily
  | Simple
  | Triple
  | Quintuple
deriving DecidableEq, Repr

/-- `RhythmRule` from `types.ts`: one rhythmic grid. -/
structure RhythmRule where
  enabled : Bool
  family : RhythmFamily
  minNoteValue : String
deriving DecidableEq, Repr

inductive ConflictType
  | type1_unison_overlap
  | type2_polyphony_blip
  | type3_contextual_rhythm
deriving DecidableEq, Repr

inductive ConfidenceLabel
  | Certain
  | Weak_Primary
  | Ambiguous
deriving DecidableEq, Repr

structure Accommodation where
  shortenedFrom : ℤ
  shortenedTo : ℤ
  reason : String
deriving DecidableEq, Repr

structure ObjectiveBreakdown where
  noteRetention : Frac
  ordering : Frac
  movement : Frac
  overlapAndBlip : Frac
  confidenceAwareEdit : Frac
  total : Frac
deriving DecidableEq, Repr

structure AlternativeRecord where
  family : RhythmFamily
  noteValue : String
  onsetTicks : ℤ
  durationTicks : ℤ
  totalScore : Frac
deriving DecidableEq, Repr

/-- `ShadowDecision` attached to each quantized note. -/
structure ShadowDecision where
  confidence : ConfidenceLabel
  pass1BestFamily : RhythmFamily
  selectedFamily : RhythmFamily
  selectedNoteValue : String
  selectedOnsetTicks : ℤ
  selectedDurationTicks : ℤ
  objectiveBreakdown : ObjectiveBreakdown
  conflictTypes : List ConflictType
  accommodationApplied : Option Accommodation
  alternatives : List AlternativeRecord
deriving DecidableEq, Repr

/-- `RawNote` from `types.ts` (the fields read or written by the three
core components).  `shadowDecision` is the optional annotation written
by the Shadow Quantizer. -/
structure RawNote where
  midi : ℤ
  ticks : ℤ
  durationTicks : ℤ
  velocity : Frac
  name : String
  shadowDecision : Option ShadowDecision := none
deriving DecidableEq, Repr

/-! ## Shadow Quantizer (`components/services/shadowQuantizer.ts`) -/

inductive ShadowConfidence
  | CERTAIN
  | WEAK_PRIMARY
  | AMBIGUOUS
deriving DecidableEq, Repr

structure ShadowGridCandidate where
  ticks : ℤ
  error : ℤ
  family : RhythmFamily
  noteValue : String
deriving DecidableEq, Repr

structure ShadowDurationCandidate where
  durationTicks : ℤ
  error : ℤ
  family : RhythmFamily
  noteValue : String
deriving DecidableEq, Repr

structure ShadowHypothesis where
  onset : ShadowGridCandidate
  duration : ShadowDurationCandidate
  family : RhythmFamily
  noteValue : String
  quantumTicks : ℤ
  onsetError : ℤ
  durationError : ℤ
deriving DecidableEq, Repr

structure ShadowNoteAnalysis where
  original : RawNote
  bestCandidate : ShadowHypothesis
  confidence : ShadowConfidence
  alternatives : List ShadowHypothesis
deriving DecidableEq, Repr

structure EvaluatedHypothesis where
  hypothesis : ShadowHypothesis
  objective : ObjectiveBreakdown
  conflictTypes : List ConflictType
  accommodationApplied : Option Accommodation
deriving DecidableEq, Repr

/-- Modelled from the spec: `getQuantizationTickValue` lives in
`components/services/midiTransform.ts`, which is not part of the
provided sources (only its callers are).  Per the spec, "a grid's tick
quantum is derived from `minNoteValue` and the ticks-per-quarter-note
(PPQ) resolution"; the standard MIDI subdivision table is used, with the
triplet variants one third of the binary value two steps up (so at PPQ
480: a sixteenth is 120 ticks and an eighth triplet is 160 ticks, the
values exercised by the repository's own fixtures).  Unknown values
(such as the disabled marker) yield 0. -/
def getQuantizationTickValue (minNoteValue : String) (ppq : ℤ) : ℤ :=
  if minNoteValue = "1/1" then ppq * 4
  else if minNoteValue = "1/2" then ppq * 2
  else if minNoteValue = "1/4" then ppq
  else if minNoteValue = "1/8" then ppq / 2
  else if minNoteValue = "1/8t" then ppq / 3
  else if minNoteValue = "1/16" then ppq / 4
  else if minNoteValue = "1/16t" then ppq / 6
  else if minNoteValue = "1/32" then ppq / 8
  else 0

/-- `getGridQuantum`: tick interval of the smallest subdivision allowed
by a rhythm rule. -/
def getGridQuantum (ppq : ℤ) (rule : RhythmRule) : ℤ :=
  if rule.enabled = false then 0 else getQuantizationTickValue rule.minNoteValue ppq

/-- `clampDuration`: snap to the grid, flooring at one quantum. -/
def clampDuration (durationTicks quantum : ℤ) : ℤ :=
  if quantum ≤ 0 then max 1 durationTicks
  else
    let snapped := jsRound ((Int.cast durationTicks : Frac) / (Int.cast quantum : Frac)) * quantum
    max quantum snapped

/-- `getClosestGridPoint`: closest grid point for an onset. -/
def getClosestGridPoint (ticks quantum : ℤ) (family : RhythmFamily)
    (noteValue : String) : ShadowGridCandidate :=
  if quantum ≤ 0 then ⟨ticks, 0, family, noteValue⟩
  else
    let snapped := jsRound ((Int.cast ticks : Frac) / (Int.cast quantum : Frac)) * quantum
    ⟨snapped, |ticks - snapped|, family, noteValue⟩

/-- `getClosestDuration`: closest grid duration (floored at a quantum). -/
def getClosestDuration (durationTicks quantum : ℤ) (family : RhythmFamily)
    (noteValue : String) : ShadowDurationCandidate :=
  if quantum ≤ 0 then ⟨durationTicks, 0, family, noteValue⟩
  else
    let snapped := clampDuration durationTicks quantum
    ⟨snapped, |durationTicks - snapped|, family, noteValue⟩

/-- `getConfidenceLabel`. -/
def getConfidenceLabel : ShadowConfidence → ConfidenceLabel
  | .CERTAIN => .Certain
  | .WEAK_PRIMARY => .Weak_Primary
  | .AMBIGUOUS => .Ambiguous

/-- Pass-1 hypothesis built from one rhythm rule. -/
def mkRuleHypothesis (note : RawNote) (quantum : ℤ) (rule : RhythmRule) :
    ShadowHypothesis :=
  let onset := getClosestGridPoint note.ticks quantum rule.family rule.minNoteValue
  let duration := getClosestDuration note.durationTicks quantum rule.family rule.minNoteValue
  ⟨onset, duration, rule.family, rule.minNoteValue, quantum, onset.error, duration.error⟩

/-- The zero-cost passthrough hypothesis used when no rule is enabled. -/
def passthroughHypothesis (note : RawNote) : ShadowHypothesis :=
  ⟨⟨note.ticks, 0, .Simple, "Off"⟩, ⟨note.durationTicks, 0, .Simple, "Off"⟩,
    .Simple, "Off", 1, 0, 0⟩

/-- Comparator for ranking pass-1 hypotheses by combined error. -/
def hypLe (a b : ShadowHypothesis) : Bool :=
  decide (a.onsetError + a.durationError ≤ b.onsetError + b.durationError)

/-- The pass-1 candidate list for one note (primary hypothesis first,
then the secondary one, matching the push order in the source). -/
def pass1Hypotheses (note : RawNote) (primary secondary : RhythmRule)
    (primaryQuantum secondaryQuantum : ℤ) : List ShadowHypothesis :=
  (if primaryQuantum > 0 then [mkRuleHypothesis note primaryQuantum primary] else [])
    ++ (if secondary.enabled = true ∧ secondaryQuantum > 0 then
          [mkRuleHypothesis note secondaryQuantum secondary] else [])

/-- The pass-1 confidence classification chain (absolute tolerance gate,
then the 50% relative-clarity gate, then the Primary-family upgrade of
`AMBIGUOUS` to `WEAK_PRIMARY`). -/
def pass1Confidence (primary : RhythmRule) (absTolerance : Frac)
    (best : ShadowHypothesis) (secondBest : Option ShadowHypothesis) :
    ShadowConfidence :=
  let conflictless :=
    if (Int.cast best.onsetError : Frac) ≤ absTolerance ∧
        (Int.cast best.durationError : Frac) ≤ absTolerance then
      ShadowConfidence.CERTAIN
    else
      match secondBest with
      | some sb =>
          if (Int.cast best.onsetError : Frac) + (Int.cast best.durationError : Frac) ≤
              fr 1 2 * ((Int.cast sb.onsetError : Frac) + (Int.cast sb.durationError : Frac)) then
            ShadowConfidence.WEAK_PRIMARY
          else ShadowConfidence.AMBIGUOUS
      | none => ShadowConfidence.WEAK_PRIMARY
  if conflictless = ShadowConfidence.AMBIGUOUS ∧ best.family = primary.family then
    ShadowConfidence.WEAK_PRIMARY
  else conflictless

/-- The per-note body of `analyzeShadowCertainty`. -/
def analyzeNote (primary secondary : RhythmRule)
    (primaryQuantum secondaryQuantum : ℤ) (absTolerance : Frac) (note : RawNote) :
    ShadowNoteAnalysis :=
  let hypotheses := pass1Hypotheses note primary secondary primaryQuantum secondaryQuantum
  if hypotheses.length = 0 then
    ⟨note, passthroughHypothesis note, .CERTAIN, []⟩
  else
    let sortedH := sortBy hypLe hypotheses
    let best := sortedH.headD (passthroughHypothesis note)
    ⟨note, best, pass1Confidence primary absTolerance best sortedH[1]?, sortedH.tail⟩

/-- The absolute tolerance used by pass 1:
`max(0.15 × min_quantum, 5)` ticks. -/
def shadowAbsTolerance (ppq : ℤ) (primary secondary : RhythmRule) : Frac :=
  let primaryQuantum := getGridQuantum ppq primary
  let secondaryQuantum := getGridQuantum ppq secondary
  let minQuantum :=
    if secondary.enabled = true ∧ secondaryQuantum > 0 then
      min primaryQuantum secondaryQuantum
    else primaryQuantum
  Frac.max ((Int.cast minQuantum : Frac) * fr 3 20) 5

/-- `analyzeShadowCertainty` — Pass 1: per-note candidate generation,
ranking and confidence classification. -/
def analyzeShadowCertainty (notes : List RawNote) (ppq : ℤ)
    (primary secondary : RhythmRule) : List ShadowNoteAnalysis :=
  let primaryQuantum := getGridQuantum ppq primary
  let secondaryQuantum := getGridQuantum ppq secondary
  notes.map (analyzeNote primary secondary primaryQuantum secondaryQuantum
    (shadowAbsTolerance ppq primary secondary))

/-- Same-pitch time overlap between two notes (the condition inside
`countUnisonOverlaps`). -/
def unisonOverlapPred (a b : RawNote) : Bool :=
  decide (a.midi = b.midi ∧ a.ticks < b.ticks + b.durationTicks ∧
    b.ticks < a.ticks + a.durationTicks)

/-- `countUnisonOverlaps`: number of unordered same-pitch overlapping
pairs. -/
def countUnisonOverlaps : List RawNote → ℕ
  | [] => 0
  | a :: rest => rest.countP (unisonOverlapPred a) + countUnisonOverlaps rest

/-- Comparator of the event sweep in `countShortPolyphonyBlips`:
ascending tick, note-on (+1) before note-off (−1) at equal ticks. -/
def eventLe (a b : ℤ × ℤ) : Bool :=
  decide (a.1 < b.1 ∨ (a.1 = b.1 ∧ b.2 ≤ a.2))

/-- Sweep state for blip counting. -/
structure BlipState where
  active : ℤ
  spikeStart : Option ℤ
  blips : ℕ
deriving Repr

/-- One sweep step of `countShortPolyphonyBlips`. -/
def blipStep (oneBeat : ℤ) (st : BlipState) (event : ℤ × ℤ) : BlipState :=
  let prev := st.active
  let active := st.active + event.2
  let st1 : BlipState :=
    if prev ≤ 1 ∧ active > 1 then ⟨active, some event.1, st.blips⟩
    else ⟨active, st.spikeStart, st.blips⟩
  if prev > 1 ∧ active ≤ 1 then
    match st1.spikeStart with
    | some s =>
        ⟨st1.active, none, if event.1 - s < oneBeat then st1.blips + 1 else st1.blips⟩
    | none => st1
  else st1

/-- `countShortPolyphonyBlips`: count polyphony spikes shorter than one
beat. -/
def countShortPolyphonyBlips (notes : List RawNote) (ppq : ℤ) : ℕ :=
  let events := notes.flatMap fun n =>
    [(n.ticks, (1 : ℤ)), (n.ticks + n.durationTicks, (-1 : ℤ))]
  let sortedEvents := sortBy eventLe events
  (sortedEvents.foldl (blipStep ppq) ⟨0, none, 0⟩).blips

/-- Increment the count of `fam` in a first-insertion-order association
list (JavaScript `Map` semantics). -/
def bumpCount (acc : List (RhythmFamily × ℕ)) (fam : RhythmFamily) :
    List (RhythmFamily × ℕ) :=
  match acc with
  | [] => [(fam, 1)]
  | (k, v) :: rest =>
      if k = fam then (k, v + 1) :: rest else (k, v) :: bumpCount rest fam

/-- A placeholder analysis; only used for out-of-range indexing, which
never happens on the call paths used here. -/
def dummyAnalysis : ShadowNoteAnalysis :=
  ⟨⟨0, 0, 1, 0, "", none⟩, passthroughHypothesis ⟨0, 0, 1, 0, "", none⟩, .CERTAIN, []⟩

/-- `localDominantFamily`: most frequent pass-1 best family in the
±3-note neighborhood (ties resolved by `Map` insertion order, i.e.
first-appearing family wins). -/
def localDominantFamily (analyses : List ShadowNoteAnalysis) (index : ℕ) :
    RhythmFamily :=
  let start := index - 3
  let stop := min (analyses.length - 1) (index + 3)
  let window := (analyses.drop start).take (stop + 1 - start)
  let counts := window.foldl (fun acc a => bumpCount acc a.bestCandidate.family) []
  let init : ℤ × RhythmFamily :=
    (-1, (analyses.getD index dummyAnalysis).bestCandidate.family)
  (counts.foldl (fun st kv => if (kv.2 : ℤ) > st.1 then ((kv.2 : ℤ), kv.1) else st) init).2

/-- Accumulator of the unison-overlap/accommodation loop in
`evaluateHypothesisAtIndex` (`testNotes` is consumed in order; the
candidate note and the copies of already-resolved notes may both be
shortened along the way). -/
structure AccomState where
  existingAcc : List RawNote
  note : RawNote
  overlapPenalty : Frac
  overlapCount : ℕ
  conflicts : List ConflictType
  accom : Option Accommodation
deriving Repr

/-- One iteration of the accommodation loop. -/
def accomStep (minDurationTicks : ℤ) (st : AccomState) (existing : RawNote) :
    AccomState :=
  if existing.midi ≠ st.note.midi then
    { st with existingAcc := st.existingAcc ++ [existing] }
  else
    let noteEnd := st.note.ticks + st.note.durationTicks
    let existingEnd := existing.ticks + existing.durationTicks
    if st.note.ticks < existingEnd ∧ existing.ticks < noteEnd then
      let st := { st with
        overlapCount := st.overlapCount + 1,
        conflicts := st.conflicts ++ [ConflictType.type1_unison_overlap] }
      let overlapAmount := min noteEnd existingEnd - max st.note.ticks existing.ticks
      if overlapAmount > 0 then
        if st.note.durationTicks ≥ existing.durationTicks then
          let shortened := max minDurationTicks (st.note.durationTicks - overlapAmount)
          if shortened < st.note.durationTicks then
            { st with
              existingAcc := st.existingAcc ++ [existing],
              accom := some ⟨st.note.durationTicks, shortened,
                "Accommodation-first unison overlap shortening applied to candidate note."⟩,
              note := { st.note with durationTicks := shortened } }
          else
            { st with
              existingAcc := st.existingAcc ++ [existing],
              overlapPenalty := st.overlapPenalty + 90 }
        else
          let shortenedExisting :=
            max minDurationTicks (existing.durationTicks - overlapAmount)
          if shortenedExisting < existing.durationTicks then
            { st with existingAcc :=
                st.existingAcc ++ [{ existing with durationTicks := shortenedExisting }] }
          else
            { st with
              existingAcc := st.existingAcc ++ [existing],
              overlapPenalty := st.overlapPenalty + 90 }
      else
        { st with existingAcc := st.existingAcc ++ [existing] }
    else
      { st with existingAcc := st.existingAcc ++ [existing] }

/-- Comparator of the `testNotes` sort: ascending tick, then pitch. -/
def noteTickMidiLe (a b : RawNote) : Bool :=
  decide (a.ticks < b.ticks ∨ (a.ticks = b.ticks ∧ a.midi ≤ b.midi))

/-- The ordering term of the pass-2 objective: 200 when the candidate
note starts strictly before the second-to-last element of the sorted
`testNotes` (resolved notes plus the candidate), 0 otherwise. -/
def orderingComponent (testNotes : List RawNote) (noteTicks : ℤ) : Frac :=
  let previous := if testNotes.length > 1 then testNotes[testNotes.length - 2]? else none
  match previous with
  | some p => if noteTicks < p.ticks then 200 else 0
  | none => 0

/-- `evaluateHypothesisAtIndex` — score one pass-1 candidate against the
already-resolved notes. -/
def evaluateHypothesisAtIndex (index : ℕ) (analyses : List ShadowNoteAnalysis)
    (chosen : List RawNote) (candidate : ShadowHypothesis) (ppq : ℤ) :
    EvaluatedHypothesis :=
  let a := analyses.getD index dummyAnalysis
  let original := a.original
  let confidence := a.confidence
  let baseline := a.bestCandidate
  let minDurationTicks := max 1 candidate.quantumTicks
  let tentative : RawNote := { original with
    ticks := candidate.onset.ticks,
    durationTicks := candidate.duration.durationTicks }
  let st0 : AccomState := ⟨[], tentative, 0, 0, [], none⟩
  let stF := chosen.foldl (accomStep minDurationTicks) st0
  let testNotes := sortBy noteTickMidiLe (stF.existingAcc ++ [stF.note])
  let baselineOverlaps := countUnisonOverlaps chosen
  let candidateOverlaps := countUnisonOverlaps testNotes
  let overlapPenalty := stF.overlapPenalty +
    (Frac.max 0 ((Int.cast (candidateOverlaps : ℤ) : Frac) -
      (Int.cast (baselineOverlaps : ℤ) : Frac))) * 50
  let baselineBlips := countShortPolyphonyBlips chosen ppq
  let candidateBlips := countShortPolyphonyBlips testNotes ppq
  let blipHit := candidateBlips > baselineBlips
  let blipPenalty : Frac :=
    if blipHit then
      ((Int.cast (candidateBlips : ℤ) : Frac) - (Int.cast (baselineBlips : ℤ) : Frac)) *
        (if confidence ≠ ShadowConfidence.CERTAIN then 55 else 80)
    else 0
  let dominant := localDominantFamily analyses index
  let contextHit := candidate.family ≠ dominant
  let contextPenalty : Frac :=
    if contextHit then (if confidence = ShadowConfidence.CERTAIN then 8 else 16) else 0
  let conflicts := stF.conflicts
    ++ (if blipHit then [ConflictType.type2_polyphony_blip] else [])
    ++ (if contextHit then [ConflictType.type3_contextual_rhythm] else [])
  let noteRetention : Frac := 0
  let ordering : Frac := orderingComponent testNotes stF.note.ticks
  let rawDuration := max 1 original.durationTicks
  let durationRatio : Frac :=
    (Int.cast stF.note.durationTicks : Frac) / (Int.cast rawDuration : Frac)
  let durationPenalty : Frac :=
    if durationRatio < fr 1 2 ∨ durationRatio > 2 then 70
    else (Int.cast |stF.note.durationTicks - rawDuration| : Frac) /
      (Int.cast (max 1 rawDuration) : Frac) * 18
  let onsetShift := |stF.note.ticks - original.ticks|
  let onsetLimit : Frac :=
    Frac.min ((Int.cast ppq : Frac) / 2)
      (fr 3 2 * (Int.cast (max 1 stF.note.durationTicks) : Frac))
  let onsetPenalty : Frac :=
    if (Int.cast onsetShift : Frac) > onsetLimit then 70
    else (Int.cast onsetShift : Frac) / (Frac.max 1 ((Int.cast ppq : Frac) / 8)) * 10
  let movement := durationPenalty + onsetPenalty
  let overlapAndBlip := overlapPenalty + blipPenalty + contextPenalty +
    (Int.cast (stF.overlapCount : ℤ) : Frac) * 10
  let candidateChanged := candidate.onset.ticks ≠ baseline.onset.ticks ∨
    candidate.duration.durationTicks ≠ baseline.duration.durationTicks
  let confidenceAwareEdit : Frac :=
    if candidateChanged then
      (if confidence = ShadowConfidence.CERTAIN then 35 else 0) +
      (if confidence = ShadowConfidence.WEAK_PRIMARY then 14 else 0) +
      (if confidence = ShadowConfidence.AMBIGUOUS then 4 else 0)
    else 0
  let total := noteRetention + ordering + movement + overlapAndBlip + confidenceAwareEdit
  { hypothesis := { candidate with
      duration := { candidate.duration with durationTicks := stF.note.durationTicks } },
    objective := ⟨noteRetention, ordering, movement, overlapAndBlip,
      confidenceAwareEdit, total⟩,
    conflictTypes := uniqueFirst conflicts,
    accommodationApplied := stF.accom }

/-- Placeholder evaluated hypothesis (never reached: each note always
has at least its best candidate). -/
def dummyEvaluated : EvaluatedHypothesis :=
  ⟨passthroughHypothesis ⟨0, 0, 1, 0, "", none⟩, ⟨0, 0, 0, 0, 0, 0⟩, [], none⟩

/-- Comparator of the evaluated-candidate ranking in pass 2. -/
def evalLe (x y : EvaluatedHypothesis) : Bool :=
  decide (x.objective.total ≤ y.objective.total)

/-- One step of pass 2: resolve note `i` given the already-resolved
prefix `chosen`. -/
def resolveStep (analyses : List ShadowNoteAnalysis) (ppq : ℤ) (i : ℕ)
    (chosen : List RawNote) : RawNote :=
  let a := analyses.getD i dummyAnalysis
  let candidates := a.bestCandidate :: a.alternatives
  let evaluated := candidates.map fun c => evaluateHypothesisAtIndex i analyses chosen c ppq
  let sortedEv := sortBy evalLe evaluated
  let winner := sortedEv.headD dummyEvaluated
  let picked := winner.hypothesis
  { a.original with
    ticks := picked.onset.ticks,
    durationTicks := picked.duration.durationTicks,
    shadowDecision := some
      { confidence := getConfidenceLabel a.confidence,
        pass1BestFamily := a.bestCandidate.family,
        selectedFamily := picked.family,
        selectedNoteValue := picked.noteValue,
        selectedOnsetTicks := picked.onset.ticks,
        selectedDurationTicks := picked.duration.durationTicks,
        objectiveBreakdown := winner.objective,
        conflictTypes := winner.conflictTypes,
        accommodationApplied := winner.accommodationApplied,
        alternatives := sortedEv.map fun item =>
          ⟨item.hypothesis.family, item.hypothesis.noteValue,
            item.hypothesis.onset.ticks, item.hypothesis.duration.durationTicks,
            item.objective.total⟩ } }

/-- Build a list whose `n`-th element is produced from the list of all
earlier elements (the `analyses.forEach` accumulation of
`resolveGridConflicts`). -/
def buildSeq {α : Type} (f : ℕ → List α → α) : ℕ → List α
  | 0 => []
  | n + 1 => let prev := buildSeq f n; prev ++ [f n prev]

/-- `resolveGridConflicts` — Pass 2: contextual conflict solver. -/
def resolveGridConflicts (analyses : List ShadowNoteAnalysis) (ppq : ℤ) :
    List RawNote :=
  buildSeq (resolveStep analyses ppq) analyses.length

/-- `applyShadowQuantization`: the Shadow Quantizer entry point. -/
def applyShadowQuantization (notes : List RawNote) (ppq : ℤ)
    (primary secondary : RhythmRule) : List RawNote :=
  if primary.enabled = false then notes
  else resolveGridConflicts (analyzeShadowCertainty notes ppq primary secondary) ppq

/-- Placeholder note used for safe list indexing in theorem statements. -/
def dummyNote : RawNote := ⟨0, 0, 1, 0, "", none⟩

/-! ## Generic lemmas about the modelling primitives -/

theorem insertBy_perm {α : Type} (le : α → α → Bool) (a : α) (l : List α) :
    (insertBy le a l).Perm (a :: l) := by
  induction l with
  | nil => simp [insertBy]
  | cons x xs ih =>
      by_cases h : le x a = true
      · simp only [insertBy, h, if_pos]
        exact ((ih.cons x).trans (List.Perm.swap a x xs))
      · simp [insertBy, h]

theorem sortByAux_perm {α : Type} (le : α → α → Bool) :
    ∀ (l acc : List α), (sortByAux le acc l).Perm (acc ++ l)
  | [], acc => by simp [sortByAux]
  | a :: as, acc => by
      refine (sortByAux_perm le as (insertBy le a acc)).trans ?_
      have h1 : (insertBy le a acc ++ as).Perm ((a :: acc) ++ as) :=
        (insertBy_perm le a acc).append_right as
      refine h1.trans ?_
      have h2 := (@List.perm_middle _ a acc as).symm
      simpa using h2

theorem sortBy_perm {α : Type} (le : α → α → Bool) (l : List α) :
    (sortBy le l).Perm l := by
  have := sortByAux_perm le l []
  simpa [sortBy] using this

theorem sortBy_length {α : Type} (le : α → α → Bool) (l : List α) :
    (sortBy le l).length = l.length :=
  (sortBy_perm le l).length_eq

theorem sortBy_mem {α : Type} (le : α → α → Bool) (l : List α) (x : α) :
    x ∈ sortBy le l ↔ x ∈ l :=
  (sortBy_perm le l).mem_iff

theorem mem_insertBy {α : Type} (le : α → α → Bool) (a : α) (l : List α) (y : α) :
    y ∈ insertBy le a l ↔ y = a ∨ y ∈ l := by
  rw [(insertBy_perm le a l).mem_iff]; simp

theorem insertBy_map {α β : Type} (f : α → β) (le : β → β → Bool) (a : α)
    (l : List α) :
    (insertBy (fun x y => le (f x) (f y)) a l).map f = insertBy le (f a) (l.map f) := by
  induction l with
  | nil => simp [insertBy]
  | cons x xs ih =>
      by_cases h : le (f x) (f a) = true
      · simp [insertBy, h, ih]
      · simp [insertBy, h]

theorem sortByAux_map {α β : Type} (f : α → β) (le : β → β → Bool) :
    ∀ (l acc : List α),
      (sortByAux (fun x y => le (f x) (f y)) acc l).map f =
        sortByAux le (acc.map f) (l.map f)
  | [], acc => by simp [sortByAux]
  | a :: as, acc => by
      simp only [sortByAux, List.map_cons]
      rw [sortByAux_map f le as (insertBy (fun x y => le (f x) (f y)) a acc),
        insertBy_map]

theorem sortBy_map {α β : Type} (f : α → β) (le : β → β → Bool) (l : List α) :
    (sortBy (fun x y => le (f x) (f y)) l).map f = sortBy le (l.map f) := by
  have := sortByAux_map f le l []
  simpa [sortBy] using this

theorem buildSeq_length {α : Type} (f : ℕ → List α → α) :
    ∀ n, (buildSeq f n).length = n
  | 0 => rfl
  | n + 1 => by simp [buildSeq, buildSeq_length f n]

theorem buildSeq_getElem? {α : Type} (f : ℕ → List α → α) :
    ∀ n i, i < n → (buildSeq f n)[i]? = some (f i (buildSeq f i))
  | 0, i, hi => absurd hi (Nat.not_lt_zero i)
  | n + 1, i, hi => by
      rcases Nat.lt_or_ge i n with h | h
      · rw [buildSeq, List.getElem?_append_left (by simpa [buildSeq_length] using h)]
        exact buildSeq_getElem? f n i h
      · have hin : i = n := Nat.le_antisymm (Nat.lt_succ_iff.mp hi) h
        subst hin
        rw [buildSeq]
        have h2 := List.getElem?_concat_length (buildSeq f i) (f i (buildSeq f i))
        rwa [buildSeq_length] at h2

/-! ## Structural lemmas about the Shadow Quantizer -/

theorem analyzeNote_original (primary secondary : RhythmRule)
    (pq sq : ℤ) (tol : Frac) (note : RawNote) :
    (analyzeNote primary secondary pq sq tol note).original = note := by
  by_cases h : (pass1Hypotheses note primary secondary pq sq).length = 0 <;>
    simp [analyzeNote, h]

theorem analyzeShadowCertainty_length (notes : List RawNote) (ppq : ℤ)
    (primary secondary : RhythmRule) :
    (analyzeShadowCertainty notes ppq primary secondary).length = notes.length := by
  simp [analyzeShadowCertainty]

theorem resolveGridConflicts_length (analyses : List ShadowNoteAnalysis) (ppq : ℤ) :
    (resolveGridConflicts analyses ppq).length = analyses.length :=
  buildSeq_length _ _

theorem applyShadowQuantization_length (notes : List RawNote) (ppq : ℤ)
    (primary secondary : RhythmRule) :
    (applyShadowQuantization notes ppq primary secondary).length = notes.length := by
  unfold applyShadowQuantization
  split
  · rfl
  · rw [resolveGridConflicts_length, analyzeShadowCertainty_length]

theorem resolveStep_fields (analyses : List ShadowNoteAnalysis) (ppq : ℤ)
    (i : ℕ) (chosen : List RawNote) :
    (resolveStep analyses ppq i chosen).midi =
        (analyses.getD i dummyAnalysis).original.midi ∧
      (resolveStep analyses ppq i chosen).velocity =
        (analyses.getD i dummyAnalysis).original.velocity ∧
      (resolveStep analyses ppq i chosen).name =
        (analyses.getD i dummyAnalysis).original.name ∧
      ∃ d, (resolveStep analyses ppq i chosen).shadowDecision = some d :=
  ⟨rfl, rfl, rfl, ⟨_, rfl⟩⟩

/-- C10 (implicit frame property of the Shadow Quantizer): with the
Primary rule enabled, `applyShadowQuantization` returns one output note
per input note, in input order, where the `i`-th output is derived from
the `i`-th input and agrees with it on every field other than `ticks`,
`durationTicks` and the attached `shadowDecision`; in particular the
pitch (`midi`), `velocity` and `name` of every note are never altered,
and every output note carries a decision record. -/
theorem shadow_quantization_frame (notes : List RawNote) (ppq : ℤ)
    (primary secondary : RhythmRule) (hp : primary.enabled = true) :
    (applyShadowQuantization notes ppq primary secondary).length = notes.length ∧
    ∀ i, i < notes.length →
      ∃ orig outn, notes[i]? = some orig ∧
        (applyShadowQuantization notes ppq primary secondary)[i]? = some outn ∧
        outn.midi = orig.midi ∧ outn.velocity = orig.velocity ∧
        outn.name = orig.name ∧ ∃ d, outn.shadowDecision = some d := by
  refine ⟨applyShadowQuantization_length notes ppq primary secondary, ?_⟩
  intro i hi
  have hne : ¬ primary.enabled = false := by simp [hp]
  set analyses := analyzeShadowCertainty notes ppq primary secondary with hA
  have hlen : analyses.length = notes.length :=
    analyzeShadowCertainty_length notes ppq primary secondary
  have happ : applyShadowQuantization notes ppq primary secondary =
      resolveGridConflicts analyses ppq := by
    unfold applyShadowQuantization
    rw [if_neg hne]
  have horig : notes[i]? = some notes[i] := (List.getElem?_eq_some_iff).mpr ⟨hi, rfl⟩
  have hai : analyses[i]? = some (analyzeNote primary secondary
      (getGridQuantum ppq primary) (getGridQuantum ppq secondary)
      (shadowAbsTolerance ppq primary secondary) notes[i]) := by
    rw [hA]
    unfold analyzeShadowCertainty
    rw [List.getElem?_map, horig]
    rfl
  have hgd : analyses.getD i dummyAnalysis = analyzeNote primary secondary
      (getGridQuantum ppq primary) (getGridQuantum ppq secondary)
      (shadowAbsTolerance ppq primary secondary) notes[i] := by
    simp [List.getD, hai]
  have hout : (resolveGridConflicts analyses ppq)[i]? =
      some (resolveStep analyses ppq i (buildSeq (resolveStep analyses ppq) i)) := by
    unfold resolveGridConflicts
    exact buildSeq_getElem? _ analyses.length i (by omega)
  refine ⟨notes[i], resolveStep analyses ppq i (buildSeq (resolveStep analyses ppq) i),
    horig, by rw [happ]; exact hout, ?_, ?_, ?_, ?_⟩
  · rw [(resolveStep_fields analyses ppq i _).1, hgd, analyzeNote_original]
  · rw [(resolveStep_fields analyses ppq i _).2.1, hgd, analyzeNote_original]
  · rw [(resolveStep_fields analyses ppq i _).2.2.1, hgd, analyzeNote_original]
  · exact (resolveStep_fields analyses ppq i _).2.2.2

/-- Witness for `shadow_quantization_frame` at a concrete input. -/
theorem shadow_quantization_frame_witness :
    (applyShadowQuantization [⟨60, 0, 360, fr 4 5, "a", none⟩, ⟨60, 240, 360, fr 4 5, "b", none⟩]
        480 ⟨true, .Simple, "1/16"⟩ ⟨false, .Triple, "1/8t"⟩).length = 2 ∧
    ∀ i, i < ([⟨60, 0, 360, fr 4 5, "a", none⟩, ⟨60, 240, 360, fr 4 5, "b", none⟩] :
        List RawNote).length →
      ∃ orig outn,
        ([⟨60, 0, 360, fr 4 5, "a", none⟩, ⟨60, 240, 360, fr 4 5, "b", none⟩] :
          List RawNote)[i]? = some orig ∧
        (applyShadowQuantization [⟨60, 0, 360, fr 4 5, "a", none⟩, ⟨60, 240, 360, fr 4 5, "b", none⟩]
          480 ⟨true, .Simple, "1/16"⟩ ⟨false, .Triple, "1/8t"⟩)[i]? = some outn ∧
        outn.midi = orig.midi ∧ outn.velocity = orig.velocity ∧
        outn.name = orig.name ∧ ∃ d, outn.shadowDecision = some d := by
  have h := shadow_quantization_frame
    [⟨60, 0, 360, fr 4 5, "a", none⟩, ⟨60, 240, 360, fr 4 5, "b", none⟩]
    480 ⟨true, .Simple, "1/16"⟩ ⟨false, .Triple, "1/8t"⟩ rfl
  exact ⟨h.1, h.2⟩

/-! ## C4: pass-1 confidence classification -/

theorem pass1Confidence_certain_iff (primary : RhythmRule) (tol : Frac)
    (best : ShadowHypothesis) (secondBest : Option ShadowHypothesis) :
    pass1Confidence primary tol best secondBest = ShadowConfidence.CERTAIN ↔
      ((Int.cast best.onsetError : Frac) ≤ tol ∧
        (Int.cast best.durationError : Frac) ≤ tol) := by
  unfold pass1Confidence
  by_cases hc : (Int.cast best.onsetError : Frac) ≤ tol ∧
      (Int.cast best.durationError : Frac) ≤ tol
  · simp [hc]
  · simp only [hc, if_false, iff_false]
    cases secondBest with
    | none => simp
    | some sb =>
        by_cases hrel : (Int.cast best.onsetError : Frac) + (Int.cast best.durationError : Frac) ≤
            fr 1 2 * ((Int.cast sb.onsetError : Frac) + (Int.cast sb.durationError : Frac)) <;>
          · simp only [hrel, if_true, if_false]
            split <;> simp

theorem pass1Hypotheses_err_nonneg (note : RawNote) (primary secondary : RhythmRule)
    (pq sq : ℤ) (hyp : ShadowHypothesis)
    (h : hyp ∈ pass1Hypotheses note primary secondary pq sq) :
    0 ≤ hyp.onsetError ∧ 0 ≤ hyp.durationError := by
  have herr : ∀ (q : ℤ) (rule : RhythmRule),
      0 ≤ (mkRuleHypothesis note q rule).onsetError ∧
        0 ≤ (mkRuleHypothesis note q rule).durationError := by
    intro q rule
    constructor
    · show 0 ≤ (getClosestGridPoint note.ticks q rule.family rule.minNoteValue).error
      unfold getClosestGridPoint
      split
      · exact le_refl 0
      · exact abs_nonneg _
    · show 0 ≤ (getClosestDuration note.durationTicks q rule.family rule.minNoteValue).error
      unfold getClosestDuration
      split
      · exact le_refl 0
      · exact abs_nonneg _
  unfold pass1Hypotheses at h
  rcases List.mem_append.mp h with h' | h'
  · by_cases hp : pq > 0
    · rw [if_pos hp] at h'
      rcases List.mem_singleton.mp h' with rfl
      exact herr _ _
    · rw [if_neg hp] at h'
      exact absurd h' (List.not_mem_nil _)
  · by_cases hs : secondary.enabled = true ∧ sq > 0
    · rw [if_pos hs] at h'
      rcases List.mem_singleton.mp h' with rfl
      exact herr _ _
    · rw [if_neg hs] at h'
      exact absurd h' (List.not_mem_nil _)

theorem analyzeNote_best_mem (primary secondary : RhythmRule) (pq sq : ℤ)
    (tol : Frac) (note : RawNote)
    (h : ¬ (pass1Hypotheses note primary secondary pq sq).length = 0) :
    (analyzeNote primary secondary pq sq tol note).bestCandidate ∈
      pass1Hypotheses note primary secondary pq sq := by
  have hlen : (sortBy hypLe (pass1Hypotheses note primary secondary pq sq)).length ≠ 0 := by
    rw [sortBy_length]; exact h
  have hne : sortBy hypLe (pass1Hypotheses note primary secondary pq sq) ≠ [] := by
    intro hnil
    rw [hnil] at hlen
    exact hlen rfl
  rcases List.exists_cons_of_ne_nil hne with ⟨hd, tl, heq⟩
  have hbest : (analyzeNote primary secondary pq sq tol note).bestCandidate = hd := by
    simp [analyzeNote, h, heq]
  rw [hbest]
  have hmem : hd ∈ sortBy hypLe (pass1Hypotheses note primary secondary pq sq) := by
    rw [heq]; exact List.mem_cons_self hd tl
  exact (sortBy_mem _ _ _).mp hmem

theorem analyzeNote_certain_iff (primary secondary : RhythmRule) (pq sq : ℤ)
    (tol : Frac) (note : RawNote) :
    (analyzeNote primary secondary pq sq tol note).confidence =
        ShadowConfidence.CERTAIN ↔
      ((pass1Hypotheses note primary secondary pq sq).length = 0 ∨
        ((Int.cast (analyzeNote primary secondary pq sq tol note).bestCandidate.onsetError : Frac) ≤ tol ∧
          (Int.cast (analyzeNote primary secondary pq sq tol note).bestCandidate.durationError : Frac) ≤ tol)) := by
  by_cases h : (pass1Hypotheses note primary secondary pq sq).length = 0
  · simp [analyzeNote, h]
  · have hconf : (analyzeNote primary secondary pq sq tol note).confidence =
        pass1Confidence primary tol
          ((sortBy hypLe (pass1Hypotheses note primary secondary pq sq)).headD
            (passthroughHypothesis note))
          (sortBy hypLe (pass1Hypotheses note primary secondary pq sq))[1]? := by
      simp [analyzeNote, h]
    have hbest : (analyzeNote primary secondary pq sq tol note).bestCandidate =
        (sortBy hypLe (pass1Hypotheses note primary secondary pq sq)).headD
          (passthroughHypothesis note) := by
      simp [analyzeNote, h]
    rw [hconf, hbest, pass1Confidence_certain_iff]
    simp [h]

theorem fracMax_tol_den_pos (q : ℤ) :
    0 < (Frac.max ((Int.cast q : Frac) * fr 3 20) 5).den := by
  unfold Frac.max
  split
  · show (0 : ℤ) < (1 : ℤ)
    norm_num
  · show 0 < (Frac.make (q * 3) (1 * 20)).den
    unfold Frac.make
    rw [if_neg (by norm_num)]
    norm_num

theorem shadowAbsTolerance_den_pos (ppq : ℤ) (primary secondary : RhythmRule) :
    0 < (shadowAbsTolerance ppq primary secondary).den :=
  fracMax_tol_den_pos _

/-- C4 (amended): a note's pass-1 confidence is `CERTAIN` exactly when
its best candidate's onset error and duration error are *each* within
the absolute tolerance `max(0.15 × min_quantum, 5)` ticks (or the note
has no grid candidates at all and passes through with zero error); the
source gates the two error components separately, not their sum.  The
monotonicity direction of the original claim survives: whenever the
best candidate's *combined* error is within the tolerance, the
confidence is `CERTAIN` and never a lower class. -/
theorem pass1_certain_iff_componentwise (notes : List RawNote) (ppq : ℤ)
    (primary secondary : RhythmRule) (i : ℕ) (hi : i < notes.length) :
    ∃ a, (analyzeShadowCertainty notes ppq primary secondary)[i]? = some a ∧
      (a.confidence = ShadowConfidence.CERTAIN ↔
        ((pass1Hypotheses a.original primary secondary (getGridQuantum ppq primary)
            (getGridQuantum ppq secondary)).length = 0 ∨
          ((Int.cast a.bestCandidate.onsetError : Frac) ≤
              shadowAbsTolerance ppq primary secondary ∧
            (Int.cast a.bestCandidate.durationError : Frac) ≤
              shadowAbsTolerance ppq primary secondary))) ∧
      ((Int.cast a.bestCandidate.onsetError : Frac) +
          (Int.cast a.bestCandidate.durationError : Frac) ≤
          shadowAbsTolerance ppq primary secondary →
        a.confidence = ShadowConfidence.CERTAIN) := by
  have hni : notes[i]? = some notes[i] := (List.getElem?_eq_some_iff).mpr ⟨hi, rfl⟩
  refine ⟨analyzeNote primary secondary (getGridQuantum ppq primary)
    (getGridQuantum ppq secondary) (shadowAbsTolerance ppq primary secondary) notes[i],
    ?_, ?_, ?_⟩
  · unfold analyzeShadowCertainty
    rw [List.getElem?_map, hni]
    rfl
  · have hiff := analyzeNote_certain_iff primary secondary (getGridQuantum ppq primary)
      (getGridQuantum ppq secondary) (shadowAbsTolerance ppq primary secondary) notes[i]
    rw [analyzeNote_original]
    exact hiff
  · intro hsum
    rw [analyzeNote_certain_iff]
    by_cases h : (pass1Hypotheses notes[i] primary secondary (getGridQuantum ppq primary)
        (getGridQuantum ppq secondary)).length = 0
    · exact Or.inl h
    · refine Or.inr ?_
      have hmem := analyzeNote_best_mem primary secondary (getGridQuantum ppq primary)
        (getGridQuantum ppq secondary) (shadowAbsTolerance ppq primary secondary) notes[i] h
      have hnn := pass1Hypotheses_err_nonneg notes[i] primary secondary
        (getGridQuantum ppq primary) (getGridQuantum ppq secondary) _ hmem
      have hden := shadowAbsTolerance_den_pos ppq primary secondary
      rw [Frac.intCast_add, Frac.intCast_le_iff] at hsum
      constructor
      · rw [Frac.intCast_le_iff]
        nlinarith [hnn.1, hnn.2, hden, hsum]
      · rw [Frac.intCast_le_iff]
        nlinarith [hnn.1, hnn.2, hden, hsum]

/-- Witness for `pass1_certain_iff_componentwise` at a concrete input
(single note `(60, 10, 130)`, PPQ 480, Primary `Simple 1/16`). -/
theorem pass1_certain_iff_componentwise_witness :
    ∃ a, (analyzeShadowCertainty [⟨60, 10, 130, fr 4 5, "", none⟩] 480
        ⟨true, .Simple, "1/16"⟩ ⟨false, .Triple, "1/8t"⟩)[0]? = some a ∧
      (a.confidence = ShadowConfidence.CERTAIN ↔
        ((pass1Hypotheses a.original ⟨true, .Simple, "1/16"⟩ ⟨false, .Triple, "1/8t"⟩
            (getGridQuantum 480 ⟨true, .Simple, "1/16"⟩)
            (getGridQuantum 480 ⟨false, .Triple, "1/8t"⟩)).length = 0 ∨
          ((Int.cast a.bestCandidate.onsetError : Frac) ≤
              shadowAbsTolerance 480 ⟨true, .Simple, "1/16"⟩ ⟨false, .Triple, "1/8t"⟩ ∧
            (Int.cast a.bestCandidate.durationError : Frac) ≤
              shadowAbsTolerance 480 ⟨true, .Simple, "1/16"⟩ ⟨false, .Triple, "1/8t"⟩))) ∧
      ((Int.cast a.bestCandidate.onsetError : Frac) +
          (Int.cast a.bestCandidate.durationError : Frac) ≤
          shadowAbsTolerance 480 ⟨true, .Simple, "1/16"⟩ ⟨false, .Triple, "1/8t"⟩ →
        a.confidence = ShadowConfidence.CERTAIN) :=
  pass1_certain_iff_componentwise [⟨60, 10, 130, fr 4 5, "", none⟩] 480
    ⟨true, .Simple, "1/16"⟩ ⟨false, .Triple, "1/8t"⟩ 0 (by decide)

/-- C4 counterexample: for the note `(midi 60, onset 10, duration 130)`
at PPQ 480 with the Primary `Simple 1/16` grid (quantum 120 ticks,
tolerance `max(0.15 × 120, 5) = 18`), the best candidate has onset error
10 and duration error 10, so its *combined* error 20 exceeds the
tolerance — yet the source classifies the note `CERTAIN`, because it
compares each error component to the tolerance separately.  This
refutes the claim that `CERTAIN` holds exactly when the combined error
is within the tolerance. -/
theorem pass1_certain_combined_counterexample :
    ∃ a, (analyzeShadowCertainty [⟨60, 10, 130, fr 4 5, "", none⟩] 480
        ⟨true, .Simple, "1/16"⟩ ⟨false, .Triple, "1/8t"⟩)[0]? = some a ∧
      a.confidence = ShadowConfidence.CERTAIN ∧
      a.bestCandidate.onsetError + a.bestCandidate.durationError = 20 ∧
      ¬ ((Int.cast (a.bestCandidate.onsetError + a.bestCandidate.durationError) : Frac) ≤
          shadowAbsTolerance 480 ⟨true, .Simple, "1/16"⟩ ⟨false, .Triple, "1/8t"⟩) := by
  refine ⟨(analyzeShadowCertainty [⟨60, 10, 130, fr 4 5, "", none⟩] 480
    ⟨true, .Simple, "1/16"⟩ ⟨false, .Triple, "1/8t"⟩).headD dummyAnalysis, ?_, ?_, ?_, ?_⟩
  · decide
  · decide
  · decide
  · decide

/-! ## C2: non-idempotence of the Shadow Quantizer -/

/-- C2 (code bug): the Shadow Quantizer is not idempotent.  For the two
same-pitch notes `(60, 120, 240)` and `(60, 240, 600)` at PPQ 480 with
the Primary `Simple 1/16` rule alone, the first run shortens the second
note by accommodation from 600 to 480 ticks — but that shortening does
not eliminate the unison overlap against `[120, 360)` (only shortening
the *earlier* note could), so a second run on the output shortens the
same note again from 480 to 360.  Re-running changes `durationTicks`,
contradicting "re-running the Shadow Quantizer on its own output with
the same rules changes nothing further (no oscillation)". -/
theorem shadow_quantization_not_idempotent :
    ((applyShadowQuantization
        [⟨60, 120, 240, fr 4 5, "", none⟩, ⟨60, 240, 600, fr 4 5, "", none⟩]
        480 ⟨true, .Simple, "1/16"⟩ ⟨false, .Triple, "1/8t"⟩).map
          fun n => (n.ticks, n.durationTicks)) = [(120, 240), (240, 480)] ∧
    ((applyShadowQuantization
        (applyShadowQuantization
          [⟨60, 120, 240, fr 4 5, "", none⟩, ⟨60, 240, 600, fr 4 5, "", none⟩]
          480 ⟨true, .Simple, "1/16"⟩ ⟨false, .Triple, "1/8t"⟩)
        480 ⟨true, .Simple, "1/16"⟩ ⟨false, .Triple, "1/8t"⟩).map
          fun n => (n.ticks, n.durationTicks)) = [(120, 240), (240, 360)] ∧
    ([((240 : ℤ), (480 : ℤ))] : List (ℤ × ℤ)) ≠ [(240, 360)] := by
  refine ⟨by decide, by decide, by decide⟩

/-! ## C3: the overlap/accommodation example -/

/-- C3 counterexample: for the two same-pitch notes at ticks 0 and 240,
both of duration 360, with the Primary rule enabled (PPQ 480,
`Simple 1/16`), the Shadow Quantizer does *not* record an
`accommodationApplied` showing the first note shortened to end at tick
240: the first note's decision carries no accommodation at all and its
duration stays 360 (it still ends at tick 360); the only accommodation
record is attached to the *second* note (the one starting at tick 240),
which is the note that gets shortened. -/
theorem accommodation_example_counterexample :
    ((applyShadowQuantization
        [⟨60, 0, 360, fr 4 5, "", none⟩, ⟨60, 240, 360, fr 4 5, "", none⟩]
        480 ⟨true, .Simple, "1/16"⟩ ⟨false, .Triple, "1/8t"⟩).getD 0 dummyNote).durationTicks
        = 360 ∧
    (((applyShadowQuantization
        [⟨60, 0, 360, fr 4 5, "", none⟩, ⟨60, 240, 360, fr 4 5, "", none⟩]
        480 ⟨true, .Simple, "1/16"⟩ ⟨false, .Triple, "1/8t"⟩).getD 0 dummyNote).shadowDecision.map
          fun d => d.accommodationApplied) = some none ∧
    (((applyShadowQuantization
        [⟨60, 0, 360, fr 4 5, "", none⟩, ⟨60, 240, 360, fr 4 5, "", none⟩]
        480 ⟨true, .Simple, "1/16"⟩ ⟨false, .Triple, "1/8t"⟩).getD 1 dummyNote).shadowDecision.map
          fun d => d.accommodationApplied.map fun a => (a.shortenedFrom, a.shortenedTo))
        = some (some (360, 240)) := by
  refine ⟨by decide, by decide, by decide⟩

/-- C3 (amended): for the two same-pitch notes at ticks 0 and 240, both
of duration 360, with the Primary rule enabled (PPQ 480, `Simple 1/16`),
the Shadow Quantizer reports a `type1_unison_overlap` conflict and an
`accommodationApplied` record — but on the *second* note's decision,
showing the second note (the note starting at tick 240) shortened from
360 to 240 ticks; the first note keeps onset 0 and duration 360, and
both notes are retained (no silent merge). -/
theorem accommodation_example_amended :
    ((applyShadowQuantization
        [⟨60, 0, 360, fr 4 5, "", none⟩, ⟨60, 240, 360, fr 4 5, "", none⟩]
        480 ⟨true, .Simple, "1/16"⟩ ⟨false, .Triple, "1/8t"⟩).map
          fun n => (n.midi, n.ticks, n.durationTicks)) =
        [(60, 0, 360), (60, 240, 240)] ∧
    (((applyShadowQuantization
        [⟨60, 0, 360, fr 4 5, "", none⟩, ⟨60, 240, 360, fr 4 5, "", none⟩]
        480 ⟨true, .Simple, "1/16"⟩ ⟨false, .Triple, "1/8t"⟩).getD 1 dummyNote).shadowDecision.map
          fun d => (decide (ConflictType.type1_unison_overlap ∈ d.conflictTypes),
            d.accommodationApplied.map fun a => (a.shortenedFrom, a.shortenedTo)))
        = some (true, some (360, 240)) := by
  refine ⟨by decide, by decide⟩

/-! ## C5: the pass-2 ordering term -/

/-- C5 counterexample: quantizing the three notes `(60, 0, 480)`,
`(64, 960, 480)`, `(67, 240, 480)` at PPQ 480 with the Primary
`Simple 1/16` rule alone, the third note is resolved at onset 240,
strictly before the previously resolved note's onset 960 — the claim
then demands an ordering penalty of 200 — yet the recorded ordering
component of its decision is 0: the source compares the candidate
against the second-to-last element of the sorted union of resolved
notes and candidate (here the candidate itself), not against the
previously resolved note. -/
theorem pass2_ordering_counterexample :
    ((applyShadowQuantization
        [⟨60, 0, 480, fr 4 5, "", none⟩, ⟨64, 960, 480, fr 4 5, "", none⟩,
          ⟨67, 240, 480, fr 4 5, "", none⟩]
        480 ⟨true, .Simple, "1/16"⟩ ⟨false, .Triple, "1/8t"⟩).map fun n => n.ticks)
        = [0, 960, 240] ∧
    (((applyShadowQuantization
        [⟨60, 0, 480, fr 4 5, "", none⟩, ⟨64, 960, 480, fr 4 5, "", none⟩,
          ⟨67, 240, 480, fr 4 5, "", none⟩]
        480 ⟨true, .Simple, "1/16"⟩ ⟨false, .Triple, "1/8t"⟩).getD 2 dummyNote).shadowDecision.map
          fun d => d.objectiveBreakdown.ordering) = some 0 ∧
    (0 : Frac) ≠ 200 := by
  refine ⟨by decide, by decide, by decide⟩

/-- The sort key of the pass-2 `testNotes` sort: onset tick, then
pitch.  (The comparator never reads durations, so accommodation-induced
duration changes cannot affect the ordering term.) -/
def tickMidiKey (n : RawNote) : ℤ × ℤ := (n.ticks, n.midi)

/-- `noteTickMidiLe` lifted to bare keys. -/
def keyLe (a b : ℤ × ℤ) : Bool :=
  decide (a.1 < b.1 ∨ (a.1 = b.1 ∧ a.2 ≤ b.2))

theorem accomStep_keys (m : ℤ) (st : AccomState) (existing : RawNote) :
    ((accomStep m st existing).existingAcc).map tickMidiKey =
        st.existingAcc.map tickMidiKey ++ [tickMidiKey existing] ∧
      (accomStep m st existing).note.ticks = st.note.ticks ∧
      (accomStep m st existing).note.midi = st.note.midi := by
  unfold accomStep
  split_ifs
  all_goals simp [tickMidiKey]
  all_goals try split_ifs
  all_goals simp [tickMidiKey]

theorem accomFold_keys (m : ℤ) :
    ∀ (chosen : List RawNote) (st : AccomState),
      ((chosen.foldl (accomStep m) st).existingAcc).map tickMidiKey =
          st.existingAcc.map tickMidiKey ++ chosen.map tickMidiKey ∧
        (chosen.foldl (accomStep m) st).note.ticks = st.note.ticks ∧
        (chosen.foldl (accomStep m) st).note.midi = st.note.midi
  | [], st => by simp
  | a :: as, st => by
      have hstep := accomStep_keys m st a
      have hih := accomFold_keys m as (accomStep m st a)
      refine ⟨?_, ?_, ?_⟩
      · rw [List.foldl_cons, hih.1, hstep.1]
        simp
      · rw [List.foldl_cons, hih.2.1, hstep.2.1]
      · rw [List.foldl_cons, hih.2.2, hstep.2.2]

theorem orderingComponent_eq_keys (tn : List RawNote) (nt : ℤ) :
    orderingComponent tn nt =
      if 1 < tn.length ∧
          nt < ((tn.map tickMidiKey).getD (tn.length - 2) (0, 0)).1 then 200
      else 0 := by
  unfold orderingComponent
  by_cases h : tn.length > 1
  · have hlt : tn.length - 2 < tn.length := by omega
    have hsome : tn[tn.length - 2]? = some tn[tn.length - 2] :=
      (List.getElem?_eq_some_iff).mpr ⟨hlt, rfl⟩
    have hgetD : ((tn.map tickMidiKey).getD (tn.length - 2) (0, 0)) =
        tickMidiKey tn[tn.length - 2] := by
      rw [List.getD, List.get?_eq_getElem?, List.getElem?_map, hsome]
      rfl
    simp only [h, if_true, hsome, hgetD]
    by_cases hc : nt < tn[tn.length - 2].ticks
    · simp [hc, tickMidiKey]
    · simp [hc, tickMidiKey]
  · simp only [h, if_false]
    have hcond : ¬ (1 < tn.length ∧
        nt < ((tn.map tickMidiKey).getD (tn.length - 2) (0, 0)).1) := by
      intro hcontra
      exact h hcontra.1
    simp [hcond]

/-- C5 (amended): the ordering component of the pass-2 objective is 200
(versus 0 otherwise) exactly when the candidate's onset is strictly
before the onset of the *second-to-last* element of the sorted-by-
(onset, pitch) union of the already-resolved notes and the candidate
itself — not of the previously resolved note, as the claim put it.
When the candidate's onset is the largest or second-largest key in that
union (in particular whenever exactly one resolved note lies after it),
the term is 0 even though the candidate starts before the previously
resolved note. -/
theorem pass2_ordering_second_to_last (index : ℕ)
    (analyses : List ShadowNoteAnalysis) (chosen : List RawNote)
    (candidate : ShadowHypothesis) (ppq : ℤ) :
    (evaluateHypothesisAtIndex index analyses chosen candidate ppq).objective.ordering =
      (let keys := sortBy keyLe (chosen.map tickMidiKey ++
          [(candidate.onset.ticks, (analyses.getD index dummyAnalysis).original.midi)]);
       if 1 < keys.length ∧
           candidate.onset.ticks < (keys.getD (keys.length - 2) (0, 0)).1 then 200
       else 0) := by
  set a := analyses.getD index dummyAnalysis with ha
  set m := max 1 candidate.quantumTicks with hm
  set tentative : RawNote := { a.original with
    ticks := candidate.onset.ticks,
    durationTicks := candidate.duration.durationTicks } with htent
  set st0 : AccomState := ⟨[], tentative, 0, 0, [], none⟩ with hst0
  set stF := chosen.foldl (accomStep m) st0 with hstF
  have h1 : (evaluateHypothesisAtIndex index analyses chosen candidate ppq).objective.ordering =
      orderingComponent (sortBy noteTickMidiLe (stF.existingAcc ++ [stF.note]))
        stF.note.ticks := rfl
  have hkeys := accomFold_keys m chosen st0
  have hticks : stF.note.ticks = candidate.onset.ticks := by
    rw [hstF, hkeys.2.1, hst0]
  have hmidi : stF.note.midi = a.original.midi := by
    rw [hstF, hkeys.2.2, hst0]
  have hle : noteTickMidiLe = fun x y => keyLe (tickMidiKey x) (tickMidiKey y) := rfl
  have hmap : (sortBy noteTickMidiLe (stF.existingAcc ++ [stF.note])).map tickMidiKey =
      sortBy keyLe (chosen.map tickMidiKey ++
        [(candidate.onset.ticks, a.original.midi)]) := by
    rw [hle, sortBy_map, List.map_append]
    congr 2
    · rw [hstF, hkeys.1, hst0]
      simp
    · show [tickMidiKey stF.note] = [(candidate.onset.ticks, a.original.midi)]
      rw [tickMidiKey, hticks, hmidi]
  have hlen : (sortBy noteTickMidiLe (stF.existingAcc ++ [stF.note])).length =
      (sortBy keyLe (chosen.map tickMidiKey ++
        [(candidate.onset.ticks, a.original.midi)])).length := by
    rw [← hmap, List.length_map]
  rw [h1, orderingComponent_eq_keys, hmap, hlen, hticks]

/-! ## Ornament Detector (`components/services/ornamentDetector.ts`) -/

inductive OrnamentClass
  | grace_group
  | mordent
  | turn
  | trill
deriving DecidableEq, Repr

/-- Render an ornament class the way the source embeds it in the
`competes_with_...` tag strings. -/
def OrnamentClass.str : OrnamentClass → String
  | .grace_group => "grace_group"
  | .mordent => "mordent"
  | .turn => "turn"
  | .trill => "trill"

structure OrnamentDetectionParams where
  Tq : ℤ
  ornamentMaxSpanTicks : ℤ
  graceMaxDurTicks : ℤ
  attachGapTicks : ℤ
  neighborMaxSemitones : ℤ
  familyMNVticks : ℤ
deriving DecidableEq, Repr

structure OrnamentTimingBounds where
  startTick : ℤ
  endTick : ℤ
  principalTick : ℤ
deriving DecidableEq, Repr

/-- `OrnamentHypothesis` (the source's `class` field is spelled `cls`
here because `class` is a Lean keyword). -/
structure OrnamentHypothesis where
  cls : OrnamentClass
  principalNoteRef : String
  memberNoteIds : List String
  timingBounds : OrnamentTimingBounds
  confidence : Frac
  ambiguityTags : List String
deriving DecidableEq, Repr

/-- A note as fed to the detector: `id` is optional (assigned if
absent). -/
structure ONoteIn where
  id : Option String
  ticks : ℤ
  durationTicks : ℤ
  midi : ℤ
deriving DecidableEq, Repr

/-- `OrnamentAnnotatedNote` after id assignment. -/
structure OrnamentAnnotatedNote where
  id : String
  ticks : ℤ
  durationTicks : ℤ
  midi : ℤ
deriving DecidableEq, Repr

/-- `cap01`. -/
def cap01 (n : Frac) : Frac := Frac.max 0 (Frac.min 1 n)

/-- Note end (`getEnd`). -/
def oEnd (n : OrnamentAnnotatedNote) : ℤ := n.ticks + n.durationTicks

/-- `getGapAfter a b = b.ticks - getEnd a`. -/
def getGapAfter (a b : OrnamentAnnotatedNote) : ℤ := b.ticks - oEnd a

/-- `isNearBeat`: within `toleranceTicks` of a quarter-note boundary.
(JavaScript `%` and `Int.emod` agree on the nonnegative ticks and
positive `Tq` used throughout.) -/
def isNearBeat (tick Tq toleranceTicks : ℤ) : Bool :=
  let m := tick % Tq
  decide (m ≤ toleranceTicks ∨ Tq - m ≤ toleranceTicks)

/-- `getDefaultOrnamentDetectionParams`. -/
def getDefaultOrnamentDetectionParams (ppq : ℤ) (familyMNVticks : Option ℤ) :
    OrnamentDetectionParams :=
  let Tq := ppq
  let resolvedFamilyMNV := familyMNVticks.getD (jsRound ((Int.cast Tq : Frac) / 4))
  { Tq := Tq,
    ornamentMaxSpanTicks := Tq,
    graceMaxDurTicks := max 1 (min (jsRound ((Int.cast Tq : Frac) / 8))
      (jsRound ((Int.cast resolvedFamilyMNV : Frac) / 2))),
    attachGapTicks := max 1 (jsRound ((Int.cast Tq : Frac) / 16)),
    neighborMaxSemitones := 2,
    familyMNVticks := resolvedFamilyMNV }

/-- Comparator of `asAnnotated`: onset, then pitch. -/
def onoteLe (a b : ONoteIn) : Bool :=
  decide (a.ticks < b.ticks ∨ (a.ticks = b.ticks ∧ a.midi ≤ b.midi))

/-- `asAnnotated`: sort by (onset, pitch) and assign fallback ids
`n_<ticks>_<midi>_<index>` where missing. -/
def asAnnotated (notes : List ONoteIn) : List OrnamentAnnotatedNote :=
  (sortBy onoteLe notes).enum.map fun p =>
    match p.2.id with
    | some i => ⟨i, p.2.ticks, p.2.durationTicks, p.2.midi⟩
    | none =>
        ⟨"n_" ++ toString p.2.ticks ++ "_" ++ toString p.2.midi ++ "_" ++ toString p.1,
          p.2.ticks, p.2.durationTicks, p.2.midi⟩

/-- Minimum of a list of integers with a default for the (unreached)
empty case. -/
def listMinI (l : List ℤ) : ℤ :=
  match l with
  | [] => 0
  | x :: xs => xs.foldl min x

/-- Maximum of a list of integers with a default for the (unreached)
empty case. -/
def listMaxI (l : List ℤ) : ℤ :=
  match l with
  | [] => 0
  | x :: xs => xs.foldl max x

/-- `mkTimingBounds`. -/
def mkTimingBounds (member : List OrnamentAnnotatedNote)
    (principal : OrnamentAnnotatedNote) : OrnamentTimingBounds :=
  ⟨listMinI (member.map (fun n => n.ticks)), listMaxI (member.map oEnd), principal.ticks⟩

/-- Append tags to a hypothesis, de-duplicating (the source's
`unique([...h.ambiguityTags, ...])` idiom); no other field changes. -/
def addTags (h : OrnamentHypothesis) (tags : List String) : OrnamentHypothesis :=
  { h with ambiguityTags := uniqueFirst (h.ambiguityTags ++ tags) }

/-- `applyTimingPriors`: adds `trill_is_principal` and/or
`timing_prior_conflict` tags; all other fields are untouched. -/
def applyTimingPriors (params : OrnamentDetectionParams)
    (principal : OrnamentAnnotatedNote) (h : OrnamentHypothesis) :
    OrnamentHypothesis :=
  let tol := params.attachGapTicks
  let Tq := params.Tq
  match h.cls with
  | .trill =>
      let withPrincipalTag := addTags h ["trill_is_principal"]
      if isNearBeat h.timingBounds.startTick Tq tol = false then
        addTags withPrincipalTag ["timing_prior_conflict"]
      else withPrincipalTag
  | .grace_group =>
      if isNearBeat h.timingBounds.startTick Tq tol = true then
        addTags h ["timing_prior_conflict"]
      else h
  | _ =>
      if isNearBeat principal.ticks Tq tol = false then
        addTags h ["timing_prior_conflict"]
      else h

/-- Consecutive sliding windows of two notes. -/
def windows2 {α : Type} : List α → List (α × α)
  | a :: b :: rest => (a, b) :: windows2 (b :: rest)
  | _ => []

/-- Consecutive sliding windows of four notes. -/
def windows4 {α : Type} : List α → List (α × α × α × α)
  | a :: b :: c :: d :: rest => (a, b, c, d) :: windows4 (b :: c :: d :: rest)
  | _ => []

/-- Consecutive sliding windows of five notes. -/
def windows5 {α : Type} : List α → List (α × α × α × α × α)
  | a :: b :: c :: d :: e :: rest => (a, b, c, d, e) :: windows5 (b :: c :: d :: e :: rest)
  | _ => []

/-- The grace-group pass (one short note `g` attached to principal
`p`). -/
def graceHypotheses (params : OrnamentDetectionParams)
    (sorted : List OrnamentAnnotatedNote) : List OrnamentHypothesis :=
  (windows2 sorted).filterMap fun gp =>
    let g := gp.1
    let p := gp.2
    let gap := getGapAfter g p
    let maxRelativeDur := max 1 (Int.fdiv p.durationTicks 3)
    let graceIsShort := g.durationTicks ≤ min params.graceMaxDurTicks maxRelativeDur
    let neighborish := |g.midi - p.midi| ≤ params.neighborMaxSemitones
    if graceIsShort ∧ gap ≤ params.attachGapTicks ∧
        g.durationTicks ≤ params.ornamentMaxSpanTicks ∧ neighborish then
      let durScore := cap01 (1 - (Int.cast g.durationTicks : Frac) /
        (Int.cast (min params.graceMaxDurTicks maxRelativeDur + 1) : Frac))
      let gapScore := cap01 (1 - (Int.cast (max 0 gap) : Frac) /
        (Int.cast (params.attachGapTicks + 1) : Frac))
      some
        { cls := .grace_group,
          principalNoteRef := p.id,
          memberNoteIds := [g.id],
          timingBounds := mkTimingBounds [g] p,
          confidence := cap01 ((durScore + gapScore) / 2),
          ambiguityTags := [] }
    else none

/-- The mordent pass (`a,b,c` ornament cell + long principal `d`). -/
def mordentHypotheses (params : OrnamentDetectionParams)
    (sorted : List OrnamentAnnotatedNote) : List OrnamentHypothesis :=
  (windows4 sorted).filterMap fun w =>
    let a := w.1
    let b := w.2.1
    let c := w.2.2.1
    let d := w.2.2.2
    let aDiff := a.midi - b.midi
    let cDiff := c.midi - b.midi
    let span := oEnd c - a.ticks
    let sameNeighborPitch := decide (a.midi = c.midi)
    let sameNeighborSide := decide (aDiff ≠ 0 ∧ cDiff ≠ 0 ∧
      Int.sign aDiff = Int.sign cDiff)
    let inRange := decide (|aDiff| ≤ params.neighborMaxSemitones ∧
      |cDiff| ≤ params.neighborMaxSemitones)
    let maxDur := listMaxI [a.durationTicks, b.durationTicks, c.durationTicks]
    let minDur := max 1 (listMinI [a.durationTicks, b.durationTicks, c.durationTicks])
    let similarValues :=
      decide ((Int.cast maxDur : Frac) / (Int.cast minDur : Frac) ≤ fr 3 2)
    let shortEnough := [a.durationTicks, b.durationTicks, c.durationTicks].all fun v =>
      decide ((Int.cast v : Frac) ≤ (Int.cast params.Tq : Frac) / 4)
    let longPrincipalReturn := decide (d.midi = b.midi ∧ d.durationTicks ≥ 2 * maxDur)
    if sameNeighborPitch && sameNeighborSide && inRange && similarValues && shortEnough &&
        longPrincipalReturn && decide (span ≤ params.ornamentMaxSpanTicks) then
      some
        { cls := .mordent,
          principalNoteRef := d.id,
          memberNoteIds := [a.id, b.id, c.id],
          timingBounds := mkTimingBounds [a, b, c] d,
          confidence := cap01 (fr 4 5 +
            (Int.cast (params.neighborMaxSemitones - |aDiff|) : Frac) * fr 1 25),
          ambiguityTags := [] }
    else none

/-- The turn pass (four-note cell `a,b,c,d` + long final principal
`e`; span measured to the start of `e`). -/
def turnHypotheses (params : OrnamentDetectionParams)
    (sorted : List OrnamentAnnotatedNote) : List OrnamentHypothesis :=
  (windows5 sorted).filterMap fun w =>
    let a := w.1
    let b := w.2.1
    let c := w.2.2.1
    let d := w.2.2.2.1
    let e := w.2.2.2.2
    let aDiff := a.midi - b.midi
    let cDiff := c.midi - b.midi
    let span := e.ticks - a.ticks
    let maxOrnDur := listMaxI
      [a.durationTicks, b.durationTicks, c.durationTicks, d.durationTicks]
    let shortEnough :=
      [a.durationTicks, b.durationTicks, c.durationTicks, d.durationTicks].all fun v =>
        decide ((Int.cast v : Frac) ≤ (Int.cast params.Tq : Frac) / 4)
    let oppositeNeighbors := decide (aDiff ≠ 0 ∧ cDiff ≠ 0 ∧
      Int.sign aDiff ≠ Int.sign cDiff)
    let neighborsInRange := decide (|aDiff| ≤ params.neighborMaxSemitones ∧
      |cDiff| ≤ params.neighborMaxSemitones)
    let principalReturns := decide (d.midi = b.midi ∧ e.midi = b.midi)
    let longFinalPrincipal := decide (e.durationTicks ≥ 2 * maxOrnDur)
    if oppositeNeighbors && neighborsInRange && principalReturns && shortEnough &&
        longFinalPrincipal && decide (span ≤ params.ornamentMaxSpanTicks) then
      some
        { cls := .turn,
          principalNoteRef := e.id,
          memberNoteIds := [a.id, b.id, c.id, d.id],
          timingBounds := mkTimingBounds [a, b, c, d] e,
          confidence := cap01 (fr 43 50),
          ambiguityTags := [] }
    else none

/-- Consecutive-distinct pitches (the `alternating` check of the trill
loop: every note differs from its predecessor). -/
def alternatingB : List OrnamentAnnotatedNote → Bool
  | [] => true
  | x :: xs => go x xs
where
  go : OrnamentAnnotatedNote → List OrnamentAnnotatedNote → Bool
  | _, [] => true
  | x, y :: ys => decide (x.midi ≠ y.midi) && go y ys

/-- Trill confidence: grows with run length, capped at 1. -/
def trillBaseConfidence (len : ℕ) : Frac :=
  cap01 (fr 7 10 + (Int.cast ((len : ℤ) - 4) : Frac) * fr 1 25)

/-- Confidence of the competing second-note-principal hypothesis. -/
def trillSecondConfidence (len : ℕ) : Frac :=
  cap01 (trillBaseConfidence len - fr 3 100)

/-- The two competing principal-assignment hypotheses for one trill
window. -/
def trillPair (seq : List OrnamentAnnotatedNote) : List OrnamentHypothesis :=
  let first := seq.headD ⟨"", 0, 0, 0⟩
  let second := (seq.drop 1).headD ⟨"", 0, 0, 0⟩
  [{ cls := .trill,
     principalNoteRef := first.id,
     memberNoteIds := seq.map (fun n => n.id),
     timingBounds := mkTimingBounds seq first,
     confidence := trillBaseConfidence seq.length,
     ambiguityTags := ["principal_assignment_uncertain", "competing_hypothesis"] },
   { cls := .trill,
     principalNoteRef := second.id,
     memberNoteIds := seq.map (fun n => n.id),
     timingBounds := mkTimingBounds seq second,
     confidence := trillSecondConfidence seq.length,
     ambiguityTags := ["principal_assignment_uncertain", "competing_hypothesis"] }]

/-- The break conditions of the inner trill loop: exactly two distinct
pitches and strict alternation. -/
def trillWindowOk (seq : List OrnamentAnnotatedNote) : Bool :=
  decide ((uniqueFirst (seq.map (fun n => n.midi))).length = 2) && alternatingB seq

/-- The inner trill loop for a fixed start: extend the window one note
at a time, breaking when the window stops being a two-pitch
alternation, and emitting both principal hypotheses whenever the two
pitches are close enough. -/
def trillGo (params : OrnamentDetectionParams) (seq rest : List OrnamentAnnotatedNote) :
    List OrnamentHypothesis :=
  if trillWindowOk seq then
    let pitches := uniqueFirst (seq.map (fun n => n.midi))
    let interval := |pitches.getD 0 0 - pitches.getD 1 0|
    (if interval ≤ params.neighborMaxSemitones then trillPair seq else []) ++
      (match rest with
        | [] => []
        | r :: rs => trillGo params (seq ++ [r]) rs)
  else []

/-- The outer trill loop over all window starts. -/
def trillHypotheses (params : OrnamentDetectionParams) :
    List OrnamentAnnotatedNote → List OrnamentHypothesis
  | [] => []
  | a :: rest =>
      (if rest.length ≥ 3 then trillGo params (a :: rest.take 3) (rest.drop 3) else []) ++
        trillHypotheses params rest

/-- Look a note up by id (the source's `noteById` map; ids are unique
on every call path exercised here). -/
def lookupNote (l : List OrnamentAnnotatedNote) (id : String) :
    Option OrnamentAnnotatedNote :=
  l.find? fun n => n.id = id

/-- The grouping key of the `byWindow` cross-tagging pass. -/
def windowKey (h : OrnamentHypothesis) : String × ℤ × ℤ :=
  (h.principalNoteRef, h.timingBounds.startTick, h.timingBounds.endTick)

/-- Cross-tag hypotheses whose windows coincide across different
classes (`competing_hypothesis` and `competes_with_...`). -/
def crossTagCompeting (hyps : List OrnamentHypothesis) : List OrnamentHypothesis :=
  hyps.map fun h =>
    let group := hyps.filter fun h2 => windowKey h2 = windowKey h
    let classes := uniqueFirst (group.map (fun h2 => h2.cls))
    if classes.length > 1 then
      addTags h ["competing_hypothesis",
        "competes_with_" ++ String.intercalate "_"
          ((classes.filter (fun c => c ≠ h.cls)).map OrnamentClass.str)]
    else h

/-- Descending-confidence comparator. -/
def confDescLe (a b : OrnamentHypothesis) : Bool :=
  decide (b.confidence ≤ a.confidence)

/-- `detectOrnamentHypotheses`. -/
def detectOrnamentHypotheses (notes : List ONoteIn)
    (params : OrnamentDetectionParams) : List OrnamentHypothesis :=
  let sorted := asAnnotated notes
  if sorted.length < 2 then []
  else
    let hypotheses := graceHypotheses params sorted ++ mordentHypotheses params sorted
      ++ turnHypotheses params sorted ++ trillHypotheses params sorted
    let withPriors := hypotheses.map fun h =>
      match lookupNote sorted h.principalNoteRef with
      | some principal => applyTimingPriors params principal h
      | none => h
    sortBy confDescLe (crossTagCompeting withPriors)

/-- The greedy accumulation of `selectOrnamentHypotheses`: accept a
hypothesis only when none of its member ids is already used. -/
def selGo : List OrnamentHypothesis → List String → List OrnamentHypothesis
  | [], _ => []
  | h :: rest, used =>
      if h.memberNoteIds.any (fun i => decide (i ∈ used)) then selGo rest used
      else h :: selGo rest (used ++ h.memberNoteIds)

/-- `selectOrnamentHypotheses`: sort by confidence descending, then
greedily accept non-overlapping hypotheses. -/
def selectOrnamentHypotheses (hypotheses : List OrnamentHypothesis) :
    List OrnamentHypothesis :=
  selGo (sortBy confDescLe hypotheses) []

/-! ## C6: non-overlap of selected ornament hypotheses -/

theorem insertBy_pairwise_on {α : Type} (le : α → α → Bool) (P : α → Prop)
    (htot : ∀ x y, P x → P y → le x y = true ∨ le y x = true)
    (htrans : ∀ x y z, P x → P y → P z →
      le x y = true → le y z = true → le x z = true)
    (a : α) (l : List α) (hPa : P a) (hPl : ∀ x ∈ l, P x)
    (h : l.Pairwise (fun x y => le x y = true)) :
    (insertBy le a l).Pairwise (fun x y => le x y = true) := by
  induction l with
  | nil => simp [insertBy]
  | cons x xs ih =>
      rcases List.pairwise_cons.mp h with ⟨hx, hxs⟩
      have hPx : P x := hPl x (List.mem_cons_self x xs)
      have hPxs : ∀ y ∈ xs, P y := fun y hy => hPl y (List.mem_cons_of_mem x hy)
      by_cases hxa : le x a = true
      · simp only [insertBy, hxa, if_pos]
        refine List.pairwise_cons.mpr ⟨?_, ih hPxs hxs⟩
        intro y hy
        rcases (mem_insertBy le a xs y).mp hy with rfl | hy'
        · exact hxa
        · exact hx y hy'
      · simp only [insertBy, hxa]
        have hax : le a x = true := by
          rcases htot a x hPa hPx with h' | h'
          · exact h'
          · exact absurd h' hxa
        refine List.pairwise_cons.mpr ⟨?_, h⟩
        intro y hy
        rcases List.mem_cons.mp hy with rfl | hy'
        · exact hax
        · exact htrans a x y hPa hPx (hPxs y hy') hax (hx y hy')

theorem sortByAux_pairwise_on {α : Type} (le : α → α → Bool) (P : α → Prop)
    (htot : ∀ x y, P x → P y → le x y = true ∨ le y x = true)
    (htrans : ∀ x y z, P x → P y → P z →
      le x y = true → le y z = true → le x z = true) :
    ∀ (l acc : List α), (∀ x ∈ l, P x) → (∀ x ∈ acc, P x) →
      acc.Pairwise (fun x y => le x y = true) →
      (sortByAux le acc l).Pairwise (fun x y => le x y = true)
  | [], _, _, _, hacc => hacc
  | a :: as, acc, hPl, hPacc, hacc => by
      have hPa : P a := hPl a (List.mem_cons_self a as)
      have hPas : ∀ x ∈ as, P x := fun x hx => hPl x (List.mem_cons_of_mem a hx)
      have hPacc' : ∀ x ∈ insertBy le a acc, P x := by
        intro x hx
        rcases (mem_insertBy le a acc x).mp hx with rfl | hx'
        · exact hPa
        · exact hPacc x hx'
      exact sortByAux_pairwise_on le P htot htrans as (insertBy le a acc) hPas hPacc'
        (insertBy_pairwise_on le P htot htrans a acc hPa hPacc hacc)

theorem sortBy_pairwise_on {α : Type} (le : α → α → Bool) (P : α → Prop)
    (htot : ∀ x y, P x → P y → le x y = true ∨ le y x = true)
    (htrans : ∀ x y z, P x → P y → P z →
      le x y = true → le y z = true → le x z = true)
    (l : List α) (hPl : ∀ x ∈ l, P x) :
    (sortBy le l).Pairwise (fun x y => le x y = true) :=
  sortByAux_pairwise_on le P htot htrans l [] hPl (by simp) (by simp)

theorem selGo_subset (l : List OrnamentHypothesis) (used : List String) :
    ∀ h ∈ selGo l used, h ∈ l := by
  induction l generalizing used with
  | nil => intro h hh; simp [selGo] at hh
  | cons a as ih =>
      intro h hh
      by_cases hskip : a.memberNoteIds.any (fun i => decide (i ∈ used)) = true
      · rw [selGo, if_pos hskip] at hh
        exact List.mem_cons_of_mem a (ih used h hh)
      · rw [selGo, if_neg hskip] at hh
        rcases List.mem_cons.mp hh with rfl | hh'
        · exact List.mem_cons_self h as
        · exact List.mem_cons_of_mem a (ih (used ++ a.memberNoteIds) h hh')

theorem selGo_not_mem_used (l : List OrnamentHypothesis) (used : List String) :
    ∀ h ∈ selGo l used, ∀ id ∈ h.memberNoteIds, id ∉ used := by
  induction l generalizing used with
  | nil => intro h hh; simp [selGo] at hh
  | cons a as ih =>
      intro h hh id hid
      by_cases hskip : a.memberNoteIds.any (fun i => decide (i ∈ used)) = true
      · rw [selGo, if_pos hskip] at hh
        exact ih used h hh id hid
      · rw [selGo, if_neg hskip] at hh
        rcases List.mem_cons.mp hh with rfl | hh'
        · intro hmem
          apply hskip
          rw [List.any_eq_true]
          exact ⟨id, hid, by simpa using hmem⟩
        · intro hmem
          exact ih (used ++ a.memberNoteIds) h hh' id hid
            (List.mem_append_left _ hmem)

theorem selGo_pairwise_disjoint (l : List OrnamentHypothesis) (used : List String) :
    (selGo l used).Pairwise
      (fun h1 h2 => ∀ id, id ∈ h1.memberNoteIds → id ∉ h2.memberNoteIds) := by
  induction l generalizing used with
  | nil => simp [selGo]
  | cons a as ih =>
      by_cases hskip : a.memberNoteIds.any (fun i => decide (i ∈ used)) = true
      · rw [selGo, if_pos hskip]
        exact ih used
      · rw [selGo, if_neg hskip]
        refine List.pairwise_cons.mpr ⟨?_, ih (used ++ a.memberNoteIds)⟩
        intro h2 hh2 id hid hid2
        have := selGo_not_mem_used as (used ++ a.memberNoteIds) h2 hh2 id hid2
        exact this (List.mem_append_right _ hid)

theorem selGo_skipped (l : List OrnamentHypothesis) (used : List String)
    (h : OrnamentHypothesis)
    (hsorted : l.Pairwise (fun x y => y.confidence ≤ x.confidence))
    (hmem : h ∈ l) (hnot : h ∉ selGo l used) :
    (∃ id ∈ h.memberNoteIds, id ∈ used) ∨
      ∃ h' ∈ selGo l used, h.confidence ≤ h'.confidence ∧
        ∃ id, id ∈ h.memberNoteIds ∧ id ∈ h'.memberNoteIds := by
  induction l generalizing used with
  | nil => exact absurd hmem (List.not_mem_nil h)
  | cons a as ih =>
      rcases List.pairwise_cons.mp hsorted with ⟨ha, has⟩
      by_cases hskip : a.memberNoteIds.any (fun i => decide (i ∈ used)) = true
      · rw [selGo, if_pos hskip] at hnot ⊢
        rcases List.mem_cons.mp hmem with rfl | hmem'
        · left
          rcases List.any_eq_true.mp hskip with ⟨id, hid, hdec⟩
          exact ⟨id, hid, by simpa using hdec⟩
        · exact ih used has hmem' hnot
      · rw [selGo, if_neg hskip] at hnot ⊢
        rcases List.mem_cons.mp hmem with rfl | hmem'
        · exact absurd (List.mem_cons_self h _) hnot
        · have hnot' : h ∉ selGo as (used ++ a.memberNoteIds) := fun hc =>
            hnot (List.mem_cons_of_mem a hc)
          rcases ih (used ++ a.memberNoteIds) has hmem' hnot' with ⟨id, hid, hu⟩ | hfound
          · rcases List.mem_append.mp hu with hu' | hu'
            · exact Or.inl ⟨id, hid, hu'⟩
            · refine Or.inr ⟨a, List.mem_cons_self a _, ha h hmem', id, hid, hu'⟩
          · rcases hfound with ⟨h', hh', hconf, id, hid, hid'⟩
            exact Or.inr ⟨h', List.mem_cons_of_mem a hh', hconf, id, hid, hid'⟩

/-- C6: the set of ornament hypotheses returned by
`selectOrnamentHypotheses` has pairwise-disjoint `memberNoteIds` — no
note id occurs in the member lists of two different selected
hypotheses — and every hypothesis that is not selected was skipped
because one of its member ids had already been claimed by a previously
accepted hypothesis of greater or equal confidence.  (The
well-formedness hypothesis says every confidence value has a positive
denominator — automatic for any JavaScript number in the `Frac`
encoding.) -/
theorem select_ornaments_disjoint_and_greedy (hyps : List OrnamentHypothesis)
    (hval : ∀ h ∈ hyps, 0 < h.confidence.den) :
    (selectOrnamentHypotheses hyps).Pairwise
        (fun h1 h2 => ∀ id, id ∈ h1.memberNoteIds → id ∉ h2.memberNoteIds) ∧
      ∀ h ∈ hyps, h ∉ selectOrnamentHypotheses hyps →
        ∃ h' ∈ selectOrnamentHypotheses hyps, h.confidence ≤ h'.confidence ∧
          ∃ id, id ∈ h.memberNoteIds ∧ id ∈ h'.memberNoteIds := by
  constructor
  · exact selGo_pairwise_disjoint _ []
  · intro h hmem hnot
    have hsorted : (sortBy confDescLe hyps).Pairwise
        (fun x y => confDescLe x y = true) := by
      refine sortBy_pairwise_on confDescLe (fun h => 0 < h.confidence.den) ?_ ?_ hyps hval
      · intro x y _ _
        unfold confDescLe
        rcases Frac.le_total_frac y.confidence x.confidence with h' | h'
        · exact Or.inl (by simpa using h')
        · exact Or.inr (by simpa using h')
      · intro x y z hx hy hz h1 h2
        unfold confDescLe at h1 h2 ⊢
        have h1' : y.confidence ≤ x.confidence := by simpa using h1
        have h2' : z.confidence ≤ y.confidence := by simpa using h2
        simpa using Frac.le_trans_frac hz hy hx h2' h1'
    have hsorted' : (sortBy confDescLe hyps).Pairwise
        (fun x y => y.confidence ≤ x.confidence) := by
      refine hsorted.imp ?_
      intro x y hxy
      unfold confDescLe at hxy
      simpa using hxy
    have hmem' : h ∈ sortBy confDescLe hyps := (sortBy_mem _ _ _).mpr hmem
    rcases selGo_skipped (sortBy confDescLe hyps) [] h hsorted' hmem' hnot with
      ⟨id, _, hu⟩ | hfound
    · exact absurd hu (List.not_mem_nil id)
    · exact hfound

/-- Witness for `select_ornaments_disjoint_and_greedy` at a concrete
input: two hypotheses sharing member id `"x"`; the lower-confidence one
is skipped in favour of the accepted higher-confidence one. -/
theorem select_ornaments_disjoint_and_greedy_witness :
    (selectOrnamentHypotheses
        [⟨.trill, "q", ["x", "y"], ⟨0, 20, 0⟩, fr 8 10, []⟩,
          ⟨.grace_group, "p", ["x"], ⟨0, 10, 5⟩, fr 9 10, []⟩]).Pairwise
        (fun h1 h2 => ∀ id, id ∈ h1.memberNoteIds → id ∉ h2.memberNoteIds) ∧
      ∃ h' ∈ selectOrnamentHypotheses
          [⟨.trill, "q", ["x", "y"], ⟨0, 20, 0⟩, fr 8 10, []⟩,
            ⟨.grace_group, "p", ["x"], ⟨0, 10, 5⟩, fr 9 10, []⟩],
        (⟨.trill, "q", ["x", "y"], ⟨0, 20, 0⟩, fr 8 10, []⟩ :
          OrnamentHypothesis).confidence ≤ h'.confidence ∧
          ∃ id, id ∈ (⟨.trill, "q", ["x", "y"], ⟨0, 20, 0⟩, fr 8 10, []⟩ :
            OrnamentHypothesis).memberNoteIds ∧ id ∈ h'.memberNoteIds := by
  have h := select_ornaments_disjoint_and_greedy
    [⟨.trill, "q", ["x", "y"], ⟨0, 20, 0⟩, fr 8 10, []⟩,
      ⟨.grace_group, "p", ["x"], ⟨0, 10, 5⟩, fr 9 10, []⟩]
    (by intro h hh; fin_cases hh <;> norm_num [fr])
  exact ⟨h.1, h.2 ⟨.trill, "q", ["x", "y"], ⟨0, 20, 0⟩, fr 8 10, []⟩
    (by decide) (by decide)⟩

/-! ## C8: trill matching -/

set_option maxRecDepth 10000 in
/-- C8 counterexample: two qualifying alternating runs, one of 12 notes
and one of 13 notes (both spanning far beyond `ornamentMaxSpanTicks`,
confirming there is no span bound).  Each run's two full-window
principal hypotheses receive confidences `1` and `0.97`: the confidence
formula `cap01(0.7 + (len − 4) × 0.04)` saturates at the cap of 1 from
12 notes on, so the 13-note run does *not* receive strictly greater
confidence than the 12-note run, refuting the strict-increase part of
the claim. -/
theorem trill_confidence_cap_counterexample :
    (((detectOrnamentHypotheses
        [⟨some "a0", 0, 100, 60⟩, ⟨some "a1", 100, 100, 61⟩, ⟨some "a2", 200, 100, 60⟩,
          ⟨some "a3", 300, 100, 61⟩, ⟨some "a4", 400, 100, 60⟩, ⟨some "a5", 500, 100, 61⟩,
          ⟨some "a6", 600, 100, 60⟩, ⟨some "a7", 700, 100, 61⟩, ⟨some "a8", 800, 100, 60⟩,
          ⟨some "a9", 900, 100, 61⟩, ⟨some "a10", 1000, 100, 60⟩, ⟨some "a11", 1100, 100, 61⟩,
          ⟨some "a12", 1200, 100, 60⟩]
        (getDefaultOrnamentDetectionParams 480 none)).filter
          (fun h => h.memberNoteIds.length = 13)).map (fun h => h.confidence)) =
        [1, fr 97 100] ∧
    (((detectOrnamentHypotheses
        [⟨some "a0", 0, 100, 60⟩, ⟨some "a1", 100, 100, 61⟩, ⟨some "a2", 200, 100, 60⟩,
          ⟨some "a3", 300, 100, 61⟩, ⟨some "a4", 400, 100, 60⟩, ⟨some "a5", 500, 100, 61⟩,
          ⟨some "a6", 600, 100, 60⟩, ⟨some "a7", 700, 100, 61⟩, ⟨some "a8", 800, 100, 60⟩,
          ⟨some "a9", 900, 100, 61⟩, ⟨some "a10", 1000, 100, 60⟩, ⟨some "a11", 1100, 100, 61⟩]
        (getDefaultOrnamentDetectionParams 480 none)).filter
          (fun h => h.memberNoteIds.length = 12)).map (fun h => h.confidence)) =
        [1, fr 97 100] ∧
    ¬ ((1 : Frac) < 1) := by
  refine ⟨by decide, by decide, by decide⟩

/-- A placeholder annotated note for safe indexing. -/
def dummyAN : OrnamentAnnotatedNote := ⟨"", 0, 0, 0⟩

theorem addTags_fields (h : OrnamentHypothesis) (tags : List String) :
    (addTags h tags).cls = h.cls ∧
      (addTags h tags).principalNoteRef = h.principalNoteRef ∧
      (addTags h tags).memberNoteIds = h.memberNoteIds ∧
      (addTags h tags).confidence = h.confidence :=
  ⟨rfl, rfl, rfl, rfl⟩

theorem applyTimingPriors_fields (params : OrnamentDetectionParams)
    (principal : OrnamentAnnotatedNote) (h : OrnamentHypothesis) :
    (applyTimingPriors params principal h).cls = h.cls ∧
      (applyTimingPriors params principal h).principalNoteRef = h.principalNoteRef ∧
      (applyTimingPriors params principal h).memberNoteIds = h.memberNoteIds ∧
      (applyTimingPriors params principal h).confidence = h.confidence := by
  obtain ⟨cls, pr, mem, tb, conf, tags⟩ := h
  cases cls <;>
    · simp only [applyTimingPriors]
      split_ifs <;> exact ⟨rfl, rfl, rfl, rfl⟩

/-- Membership in the final detector output, preserving the four
behavioural fields, for any hypothesis produced by one of the four
pattern passes. -/
theorem detect_mem_of_pass_mem (notes : List ONoteIn)
    (params : OrnamentDetectionParams) (h : OrnamentHypothesis)
    (hlen : ¬ (asAnnotated notes).length < 2)
    (hmem : h ∈ graceHypotheses params (asAnnotated notes) ++
      mordentHypotheses params (asAnnotated notes) ++
      turnHypotheses params (asAnnotated notes) ++
      trillHypotheses params (asAnnotated notes)) :
    ∃ h2 ∈ detectOrnamentHypotheses notes params,
      h2.cls = h.cls ∧ h2.principalNoteRef = h.principalNoteRef ∧
        h2.memberNoteIds = h.memberNoteIds ∧ h2.confidence = h.confidence := by
  have hdet : detectOrnamentHypotheses notes params =
      sortBy confDescLe (crossTagCompeting
        ((graceHypotheses params (asAnnotated notes) ++
          mordentHypotheses params (asAnnotated notes) ++
          turnHypotheses params (asAnnotated notes) ++
          trillHypotheses params (asAnnotated notes)).map fun h =>
            match lookupNote (asAnnotated notes) h.principalNoteRef with
            | some principal => applyTimingPriors params principal h
            | none => h)) := by
    unfold detectOrnamentHypotheses
    rw [if_neg hlen]
  set g := fun (h : OrnamentHypothesis) =>
    match lookupNote (asAnnotated notes) h.principalNoteRef with
    | some principal => applyTimingPriors params principal h
    | none => h with hg
  have hg_fields : ∀ h', (g h').cls = h'.cls ∧
      (g h').principalNoteRef = h'.principalNoteRef ∧
      (g h').memberNoteIds = h'.memberNoteIds ∧
      (g h').confidence = h'.confidence := by
    intro h'
    simp only [hg]
    cases hl : lookupNote (asAnnotated notes) h'.principalNoteRef with
    | none => simp [hl]
    | some principal =>
        simp only [hl]
        exact applyTimingPriors_fields params principal h'
  have h1 : g h ∈ (graceHypotheses params (asAnnotated notes) ++
      mordentHypotheses params (asAnnotated notes) ++
      turnHypotheses params (asAnnotated notes) ++
      trillHypotheses params (asAnnotated notes)).map g :=
    List.mem_map_of_mem g hmem
  set withPriors := (graceHypotheses params (asAnnotated notes) ++
      mordentHypotheses params (asAnnotated notes) ++
      turnHypotheses params (asAnnotated notes) ++
      trillHypotheses params (asAnnotated notes)).map g with hwp
  set tagger := fun (h2 : OrnamentHypothesis) =>
    let group := withPriors.filter fun h3 => windowKey h3 = windowKey h2
    let classes := uniqueFirst (group.map (fun h3 => h3.cls))
    if classes.length > 1 then
      addTags h2 ["competing_hypothesis",
        "competes_with_" ++ String.intercalate "_"
          ((classes.filter (fun c => c ≠ h2.cls)).map OrnamentClass.str)]
    else h2 with htagger
  have htag_fields : ∀ h2, (tagger h2).cls = h2.cls ∧
      (tagger h2).principalNoteRef = h2.principalNoteRef ∧
      (tagger h2).memberNoteIds = h2.memberNoteIds ∧
      (tagger h2).confidence = h2.confidence := by
    intro h2
    rw [htagger]
    dsimp only
    split_ifs <;> exact ⟨rfl, rfl, rfl, rfl⟩
  have h2mem : tagger (g h) ∈ crossTagCompeting withPriors :=
    List.mem_map_of_mem tagger h1
  refine ⟨tagger (g h), ?_, ?_, ?_, ?_, ?_⟩
  · rw [hdet]
    rw [sortBy_mem]
    exact h2mem
  · rw [(htag_fields (g h)).1, (hg_fields h).1]
  · rw [(htag_fields (g h)).2.1, (hg_fields h).2.1]
  · rw [(htag_fields (g h)).2.2.1, (hg_fields h).2.2.1]
  · rw [(htag_fields (g h)).2.2.2, (hg_fields h).2.2.2]

theorem headD_eq_getD {α : Type} (l : List α) (d : α) : l.headD d = l.getD 0 d := by
  cases l <;> simp

theorem uniqueFirstAux_eq_nil {α : Type} [DecidableEq α] :
    ∀ (ms seen : List α), (∀ x ∈ ms, x ∈ seen) → uniqueFirstAux seen ms = []
  | [], _, _ => rfl
  | a :: ms, seen, h => by
      rw [uniqueFirstAux, if_pos (h a (List.mem_cons_self a ms))]
      exact uniqueFirstAux_eq_nil ms seen fun x hx => h x (List.mem_cons_of_mem a hx)

theorem uniqueFirst_two (p q : ℤ) (ms : List ℤ) (hpq : p ≠ q)
    (hms : ∀ x ∈ ms, x = p ∨ x = q) :
    uniqueFirst (p :: q :: ms) = [p, q] := by
  unfold uniqueFirst
  rw [uniqueFirstAux, if_neg (List.not_mem_nil p)]
  rw [uniqueFirstAux, if_neg (by simpa using fun h => hpq h.symm)]
  rw [uniqueFirstAux_eq_nil ms ([] ++ [p] ++ [q])]
  intro x hx
  rcases hms x hx with rfl | rfl <;> simp

theorem altGo_of_pointwise :
    ∀ (xs : List OrnamentAnnotatedNote) (x : OrnamentAnnotatedNote),
      (∀ t, t + 1 < (x :: xs).length →
        ((x :: xs).getD t dummyAN).midi ≠ ((x :: xs).getD (t + 1) dummyAN).midi) →
      alternatingB.go x xs = true
  | [], _, _ => rfl
  | y :: ys, x, hp => by
      rw [alternatingB.go, Bool.and_eq_true]
      constructor
      · exact decide_eq_true (by simpa using hp 0 (by simp))
      · refine altGo_of_pointwise ys y ?_
        intro t ht
        have := hp (t + 1) (by simpa using ht)
        simpa using this

theorem alternatingB_of_pointwise (l : List OrnamentAnnotatedNote)
    (hp : ∀ t, t + 1 < l.length →
      (l.getD t dummyAN).midi ≠ (l.getD (t + 1) dummyAN).midi) :
    alternatingB l = true := by
  cases l with
  | nil => rfl
  | cons x xs => exact altGo_of_pointwise xs x hp

/-- A window whose pitches strictly alternate between two values `p ≠ q`
(starting with `p`) passes the trill loop's break guards, and its
first-occurrence pitch list is exactly `[p, q]`. -/
theorem windowOk_of_run (l : List OrnamentAnnotatedNote) (p q : ℤ)
    (hpq : p ≠ q) (h4 : 2 ≤ l.length)
    (hpt : ∀ t, t < l.length → (l.getD t dummyAN).midi =
      (if t % 2 = 0 then p else q)) :
    trillWindowOk l = true ∧ uniqueFirst (l.map (fun n => n.midi)) = [p, q] := by
  obtain ⟨n0, l1, rfl⟩ : ∃ n0 l1, l = n0 :: l1 := by
    cases l with
    | nil => simp at h4
    | cons a as => exact ⟨a, as, rfl⟩
  obtain ⟨n1, l2, rfl⟩ : ∃ n1 l2, l1 = n1 :: l2 := by
    cases l1 with
    | nil => simp at h4
    | cons a as => exact ⟨a, as, rfl⟩
  have h0 : n0.midi = p := by simpa using hpt 0 (by simp)
  have h1 : n1.midi = q := by simpa using hpt 1 (by simp)
  have hrest : ∀ x ∈ l2.map (fun n => n.midi), x = p ∨ x = q := by
    intro x hx
    rcases List.mem_map.mp hx with ⟨n, hn, rfl⟩
    rcases List.getElem_of_mem hn with ⟨t, ht, rfl⟩
    have h2 : l2.getD t dummyAN = l2[t] := by
      rw [List.getD, List.get?_eq_getElem?, List.getElem?_eq_some_iff.mpr ⟨ht, rfl⟩]
      rfl
    have h3 := hpt (t + 2) (by simp; omega)
    have h4' : (n0 :: n1 :: l2).getD (t + 2) dummyAN = l2.getD t dummyAN := by
      simp [List.getD]
    rw [h4', h2] at h3
    by_cases hpar : (t + 2) % 2 = 0
    · rw [if_pos hpar] at h3; exact Or.inl h3
    · rw [if_neg hpar] at h3; exact Or.inr h3
  have huniq : uniqueFirst ((n0 :: n1 :: l2).map (fun n => n.midi)) = [p, q] := by
    simp only [List.map_cons, h0, h1]
    exact uniqueFirst_two p q _ hpq hrest
  refine ⟨?_, huniq⟩
  unfold trillWindowOk
  rw [Bool.and_eq_true]
  constructor
  · rw [huniq]
    simp
  · refine alternatingB_of_pointwise _ ?_
    intro t ht
    rw [hpt t (by omega), hpt (t + 1) (by omega)]
    by_cases hpar : t % 2 = 0
    · have : ¬ (t + 1) % 2 = 0 := by omega
      rw [if_pos hpar, if_neg this]
      exact hpq
    · have : (t + 1) % 2 = 0 := by omega
      rw [if_neg hpar, if_pos this]
      exact fun hcontra => hpq hcontra.symm

theorem trillGo_mem_of_windows (params : OrnamentDetectionParams) (p q : ℤ)
    (hint : |p - q| ≤ params.neighborMaxSemitones) :
    ∀ (ext seq rest' : List OrnamentAnnotatedNote),
      (∀ t, t ≤ ext.length → trillWindowOk (seq ++ ext.take t) = true) →
      uniqueFirst ((seq ++ ext).map (fun n => n.midi)) = [p, q] →
      ∀ x ∈ trillPair (seq ++ ext), x ∈ trillGo params seq (ext ++ rest')
  | [], seq, rest', hok, hpq, x, hx => by
      have hokseq : trillWindowOk seq = true := by simpa using hok 0 (by simp)
      rw [List.append_nil] at hpq hx
      rw [List.nil_append]
      rw [trillGo.eq_def, if_pos hokseq]
      refine List.mem_append_left _ ?_
      rw [hpq]
      have : |(([p, q] : List ℤ).getD 0 0) - (([p, q] : List ℤ).getD 1 0)| ≤
          params.neighborMaxSemitones := by simpa using hint
      rw [if_pos this]
      exact hx
  | e :: ext', seq, rest', hok, hpq, x, hx => by
      have hokseq : trillWindowOk seq = true := by simpa using hok 0 (by simp)
      have hstep : x ∈ trillGo params (seq ++ [e]) (ext' ++ rest') := by
        refine trillGo_mem_of_windows params p q hint ext' (seq ++ [e]) rest' ?_ ?_ x ?_
        · intro t ht
          have := hok (t + 1) (by simpa using Nat.succ_le_succ ht)
          simpa [List.append_assoc] using this
        · simpa [List.append_assoc] using hpq
        · simpa [List.append_assoc] using hx
      show x ∈ trillGo params seq (e :: (ext' ++ rest'))
      rw [trillGo.eq_def, if_pos hokseq]
      refine List.mem_append_right _ ?_
      exact hstep

theorem trillHypotheses_mem (params : OrnamentDetectionParams) :
    ∀ (l : List OrnamentAnnotatedNote) (i : ℕ), 4 ≤ (l.drop i).length →
      ∀ x ∈ trillGo params ((l.drop i).take 4) ((l.drop i).drop 4),
        x ∈ trillHypotheses params l
  | [], i, hge => by simp at hge
  | a :: as, 0, hge => by
      intro x hx
      rw [trillHypotheses]
      refine List.mem_append_left _ ?_
      have hcond : as.length ≥ 3 := by simpa using hge
      rw [if_pos hcond]
      simpa using hx
  | a :: as, i + 1, hge => by
      intro x hx
      rw [trillHypotheses]
      refine List.mem_append_right _ ?_
      exact trillHypotheses_mem params as i (by simpa using hge) x (by simpa using hx)

theorem trillBase_inner (z : ℤ) :
    fr 7 10 + (Int.cast z : Frac) * fr 1 25 = ⟨175 + 10 * z, 250⟩ := by
  show Frac.add (fr 7 10) (Frac.mul (Frac.ofInt z) (fr 1 25)) = _
  unfold Frac.add Frac.mul Frac.make Frac.ofInt fr
  norm_num
  ring

/-- Closed form of the trill base confidence: it grows by `1/25` per
extra note up to run length 11 and is capped at `1` from length 12 on. -/
theorem trillBase_rep (len : ℕ) :
    trillBaseConfidence len =
      (if (len : ℤ) ≤ 11 then ⟨175 + 10 * ((len : ℤ) - 4), 250⟩ else ⟨1, 1⟩ : Frac) := by
  unfold trillBaseConfidence cap01
  rw [trillBase_inner]
  unfold Frac.max Frac.min
  by_cases hlen : (len : ℤ) ≤ 11
  · rw [if_pos hlen]
    have hnum : (0 : ℤ) ≤ 175 + 10 * ((len : ℤ) - 4) := by
      have : (0 : ℤ) ≤ (len : ℤ) := Int.natCast_nonneg len
      omega
    have h1 : ¬ ((1 : Frac) ≤ ⟨175 + 10 * ((len : ℤ) - 4), 250⟩) := by
      rw [Frac.le_def]
      show ¬ (1 * 250 ≤ (175 + 10 * ((len : ℤ) - 4)) * 1)
      omega
    rw [if_neg h1]
    have h0 : (0 : Frac) ≤ ⟨175 + 10 * ((len : ℤ) - 4), 250⟩ := by
      rw [Frac.le_def]
      show (0 : ℤ) * 250 ≤ (175 + 10 * ((len : ℤ) - 4)) * 1
      omega
    rw [if_pos h0]
  · rw [if_neg hlen]
    have h1 : (1 : Frac) ≤ ⟨175 + 10 * ((len : ℤ) - 4), 250⟩ := by
      rw [Frac.le_def]
      show (1 : ℤ) * 250 ≤ (175 + 10 * ((len : ℤ) - 4)) * 1
      omega
    rw [if_pos h1]
    have h0 : (0 : Frac) ≤ (1 : Frac) := by
      rw [Frac.le_def]
      show (0 : ℤ) * 1 ≤ 1 * 1
      omega
    rw [if_pos h0]
    rfl

theorem trillBase_mono (n m : ℕ) (hnm : n ≤ m) :
    trillBaseConfidence n ≤ trillBaseConfidence m := by
  rw [trillBase_rep, trillBase_rep]
  have hc : (n : ℤ) ≤ (m : ℤ) := Int.ofNat_le.mpr hnm
  by_cases h1 : (n : ℤ) ≤ 11
  · by_cases h2 : (m : ℤ) ≤ 11
    · rw [if_pos h1, if_pos h2, Frac.le_def]
      show (175 + 10 * ((n : ℤ) - 4)) * 250 ≤ (175 + 10 * ((m : ℤ) - 4)) * 250
      nlinarith
    · rw [if_pos h1, if_neg h2, Frac.le_def]
      show (175 + 10 * ((n : ℤ) - 4)) * 1 ≤ 1 * 250
      omega
  · have h2 : ¬ (m : ℤ) ≤ 11 := by omega
    rw [if_neg h1, if_neg h2, Frac.le_def]

theorem trillBase_strict_mono (n m : ℕ) (hm : (m : ℤ) ≤ 11) (hnm : n < m) :
    trillBaseConfidence n < trillBaseConfidence m := by
  rw [trillBase_rep, trillBase_rep]
  have hc : (n : ℤ) < (m : ℤ) := Int.ofNat_lt.mpr hnm
  rw [if_pos hm, if_pos (by omega)]
  rw [Frac.lt_def]
  show (175 + 10 * ((n : ℤ) - 4)) * 250 < (175 + 10 * ((m : ℤ) - 4)) * 250
  nlinarith

theorem getD_irrel {α : Type} (l : List α) (t : ℕ) (d d' : α) (h : t < l.length) :
    l.getD t d = l.getD t d' := by
  rw [List.getD, List.getD, List.get?_eq_getElem?,
    List.getElem?_eq_some_iff.mpr ⟨h, rfl⟩]
  rfl

theorem getD_take {α : Type} (l : List α) (n t : ℕ) (d : α) (h : t < n) :
    (l.take n).getD t d = l.getD t d := by
  rw [List.getD, List.getD, List.get?_eq_getElem?, List.get?_eq_getElem?,
    List.getElem?_take_of_lt h]

theorem getD_drop {α : Type} (l : List α) (n t : ℕ) (d : α) :
    (l.drop n).getD t d = l.getD (n + t) d := by
  rw [List.getD, List.getD, List.get?_eq_getElem?, List.get?_eq_getElem?,
    List.getElem?_drop]

theorem trillPair_eq (seq : List OrnamentAnnotatedNote) :
    trillPair seq =
      [{ cls := .trill,
         principalNoteRef := (seq.headD ⟨"", 0, 0, 0⟩).id,
         memberNoteIds := seq.map (fun n => n.id),
         timingBounds := mkTimingBounds seq (seq.headD ⟨"", 0, 0, 0⟩),
         confidence := trillBaseConfidence seq.length,
         ambiguityTags := ["principal_assignment_uncertain", "competing_hypothesis"] },
       { cls := .trill,
         principalNoteRef := ((seq.drop 1).headD ⟨"", 0, 0, 0⟩).id,
         memberNoteIds := seq.map (fun n => n.id),
         timingBounds := mkTimingBounds seq ((seq.drop 1).headD ⟨"", 0, 0, 0⟩),
         confidence := trillSecondConfidence seq.length,
         ambiguityTags := ["principal_assignment_uncertain", "competing_hypothesis"] }] := rfl

/-- A strictly alternating two-pitch run inside the sorted note list,
described positionally, puts both members of the corresponding
`trillPair` into the inner-loop output for its own start index. -/
theorem trill_run_core (notes : List ONoteIn) (params : OrnamentDetectionParams)
    (i j : ℕ) (p q : ℤ)
    (hij : i + 3 ≤ j) (hj : j < (asAnnotated notes).length)
    (hpq : p ≠ q) (hint : |p - q| ≤ params.neighborMaxSemitones)
    (hrun : ∀ k, i ≤ k → k ≤ j →
      ((asAnnotated notes).getD k dummyAN).midi = (if (k - i) % 2 = 0 then p else q)) :
    ∀ x ∈ trillPair (((asAnnotated notes).drop i).take (j + 1 - i)),
      x ∈ trillHypotheses params (asAnnotated notes) := by
  intro x hx
  have hXlen : j + 1 - i ≤ ((asAnnotated notes).drop i).length := by
    rw [List.length_drop]
    omega
  have hlenFull : ((((asAnnotated notes).drop i).take (j + 1 - i))).length = j + 1 - i := by
    rw [List.length_take]
    omega
  have hmidi : ∀ t, t < j + 1 - i →
      (((asAnnotated notes).drop i).getD t dummyAN).midi = (if t % 2 = 0 then p else q) := by
    intro t ht
    rw [getD_drop, hrun (i + t) (by omega) (by omega), Nat.add_sub_cancel_left]
  have hwin : ∀ s, 2 ≤ s → s ≤ j + 1 - i →
      trillWindowOk (((asAnnotated notes).drop i).take s) = true ∧
        uniqueFirst ((((asAnnotated notes).drop i).take s).map (fun n => n.midi)) =
          [p, q] := by
    intro s hs2 hsm
    have hlenW : ((((asAnnotated notes).drop i).take s)).length = s := by
      rw [List.length_take]
      omega
    refine windowOk_of_run _ p q hpq (by rw [hlenW]; exact hs2) ?_
    intro t ht
    rw [hlenW] at ht
    rw [getD_take _ _ _ _ ht]
    exact hmidi t (by omega)
  have hextlen : ((((asAnnotated notes).drop i).drop 4).take (j + 1 - i - 4)).length =
      j + 1 - i - 4 := by
    rw [List.length_take, List.length_drop, List.length_drop]
    omega
  have happ : ∀ t, t ≤ j + 1 - i - 4 →
      ((asAnnotated notes).drop i).take 4 ++
          ((((asAnnotated notes).drop i).drop 4).take (j + 1 - i - 4)).take t =
        ((asAnnotated notes).drop i).take (4 + t) := by
    intro t ht
    rw [List.take_take, min_eq_left ht, ← List.take_add]
  have hfull : ((asAnnotated notes).drop i).take 4 ++
      (((asAnnotated notes).drop i).drop 4).take (j + 1 - i - 4) =
      ((asAnnotated notes).drop i).take (j + 1 - i) := by
    rw [← List.take_add]
    congr 1
    omega
  have hok : ∀ t, t ≤ ((((asAnnotated notes).drop i).drop 4).take (j + 1 - i - 4)).length →
      trillWindowOk (((asAnnotated notes).drop i).take 4 ++
        ((((asAnnotated notes).drop i).drop 4).take (j + 1 - i - 4)).take t) = true := by
    intro t ht
    rw [hextlen] at ht
    rw [happ t ht]
    exact (hwin (4 + t) (by omega) (by omega)).1
  have hpqfull : uniqueFirst ((((asAnnotated notes).drop i).take 4 ++
      (((asAnnotated notes).drop i).drop 4).take (j + 1 - i - 4)).map
        (fun n => n.midi)) = [p, q] := by
    rw [hfull]
    exact (hwin (j + 1 - i) (by omega) (le_refl _)).2
  have hstep := trillGo_mem_of_windows params p q hint
    ((((asAnnotated notes).drop i).drop 4).take (j + 1 - i - 4))
    (((asAnnotated notes).drop i).take 4)
    ((((asAnnotated notes).drop i).drop 4).drop (j + 1 - i - 4))
    hok hpqfull x (by rw [hfull]; exact hx)
  rw [List.take_append_drop] at hstep
  exact trillHypotheses_mem params (asAnnotated notes) i
    (le_trans (by omega) hXlen) x hstep

theorem trillPair_mem_spec (seq : List OrnamentAnnotatedNote) :
    (∃ x ∈ trillPair seq, x.cls = OrnamentClass.trill ∧
       x.principalNoteRef = (seq.headD ⟨"", 0, 0, 0⟩).id ∧
       x.memberNoteIds = seq.map (fun n => n.id) ∧
       x.confidence = trillBaseConfidence seq.length) ∧
    (∃ x ∈ trillPair seq, x.cls = OrnamentClass.trill ∧
       x.principalNoteRef = ((seq.drop 1).headD ⟨"", 0, 0, 0⟩).id ∧
       x.memberNoteIds = seq.map (fun n => n.id) ∧
       x.confidence = trillSecondConfidence seq.length) := by
  rw [trillPair_eq]
  exact ⟨⟨_, List.mem_cons_self _ _, rfl, rfl, rfl, rfl⟩,
    ⟨_, List.mem_cons_of_mem _ (List.mem_cons_self _ _), rfl, rfl, rfl, rfl⟩⟩

/-- C8 (amended): every run of 4 or more notes of the sorted input that
strictly alternates between two pitches `p ≠ q` within
`neighborMaxSemitones` yields, with no constraint whatsoever on the
run's total time span, two competing trill hypotheses in the detector
output — principal the first, resp. the second, note of the run — with
confidences `trillBaseConfidence`/`trillSecondConfidence` of the run
length.  Confidence is monotone in run length, and strictly increasing
only below the cap: runs of 12 or more notes all share confidence 1. -/
theorem trill_run_detection_and_confidence
    (notes : List ONoteIn) (params : OrnamentDetectionParams)
    (i j : ℕ) (p q : ℤ)
    (hij : i + 3 ≤ j) (hj : j < (asAnnotated notes).length)
    (hpq : p ≠ q) (hint : |p - q| ≤ params.neighborMaxSemitones)
    (hrun : ∀ k, i ≤ k → k ≤ j →
      ((asAnnotated notes).getD k dummyAN).midi = (if (k - i) % 2 = 0 then p else q)) :
    ((∃ h1 ∈ detectOrnamentHypotheses notes params,
        h1.cls = OrnamentClass.trill ∧
        h1.principalNoteRef = ((asAnnotated notes).getD i dummyAN).id ∧
        h1.memberNoteIds =
          (((asAnnotated notes).drop i).take (j + 1 - i)).map (fun n => n.id) ∧
        h1.confidence = trillBaseConfidence (j + 1 - i)) ∧
      (∃ h2 ∈ detectOrnamentHypotheses notes params,
        h2.cls = OrnamentClass.trill ∧
        h2.principalNoteRef = ((asAnnotated notes).getD (i + 1) dummyAN).id ∧
        h2.memberNoteIds =
          (((asAnnotated notes).drop i).take (j + 1 - i)).map (fun n => n.id) ∧
        h2.confidence = trillSecondConfidence (j + 1 - i))) ∧
    (∀ a b : ℕ, a ≤ b → trillBaseConfidence a ≤ trillBaseConfidence b) ∧
    (∀ a b : ℕ, (b : ℤ) ≤ 11 → a < b →
      trillBaseConfidence a < trillBaseConfidence b) := by
  have hcore := trill_run_core notes params i j p q hij hj hpq hint hrun
  have hlen2 : ¬ (asAnnotated notes).length < 2 := by omega
  have hlenFull : ((((asAnnotated notes).drop i).take (j + 1 - i))).length = j + 1 - i := by
    rw [List.length_take, List.length_drop]
    omega
  have hhead : (((((asAnnotated notes).drop i).take (j + 1 - i))).headD
      (⟨"", 0, 0, 0⟩ : OrnamentAnnotatedNote)).id =
      ((asAnnotated notes).getD i dummyAN).id := by
    rw [headD_eq_getD, getD_take _ _ _ _ (show 0 < j + 1 - i by omega), getD_drop,
      Nat.add_zero]
    exact rfl
  have hsecond : ((((((asAnnotated notes).drop i).take (j + 1 - i))).drop 1).headD
      (⟨"", 0, 0, 0⟩ : OrnamentAnnotatedNote)).id =
      ((asAnnotated notes).getD (i + 1) dummyAN).id := by
    rw [headD_eq_getD, getD_drop, getD_take _ _ _ _ (show 1 + 0 < j + 1 - i by omega),
      getD_drop, Nat.add_zero]
    exact rfl
  obtain ⟨⟨A, hAmem, hAcls, hApr, hAids, hAconf⟩, ⟨B, hBmem, hBcls, hBpr, hBids, hBconf⟩⟩ :=
    trillPair_mem_spec (((asAnnotated notes).drop i).take (j + 1 - i))
  obtain ⟨hA2, hA2mem, hA2cls, hA2pr, hA2ids, hA2conf⟩ :=
    detect_mem_of_pass_mem notes params A hlen2
      (List.mem_append_right _ (hcore A hAmem))
  obtain ⟨hB2, hB2mem, hB2cls, hB2pr, hB2ids, hB2conf⟩ :=
    detect_mem_of_pass_mem notes params B hlen2
      (List.mem_append_right _ (hcore B hBmem))
  refine ⟨⟨⟨hA2, hA2mem, ?_, ?_, ?_, ?_⟩, ⟨hB2, hB2mem, ?_, ?_, ?_, ?_⟩⟩,
    trillBase_mono, trillBase_strict_mono⟩
  · rw [hA2cls, hAcls]
  · rw [hA2pr, hApr, hhead]
  · rw [hA2ids, hAids]
  · rw [hA2conf, hAconf, hlenFull]
  · rw [hB2cls, hBcls]
  · rw [hB2pr, hBpr, hsecond]
  · rw [hB2ids, hBids]
  · rw [hB2conf, hBconf, hlenFull]

/-- Witness for the amended trill claim at a concrete 4-note
alternating run whose total span is 300000 ticks, far beyond every
span parameter of the detector. -/
theorem trill_run_detection_and_confidence_witness :
    ((0 : ℕ) + 3 ≤ 3 ∧ (60 : ℤ) ≠ 62 ∧
      |(60 : ℤ) - 62| ≤ (getDefaultOrnamentDetectionParams 480 none).neighborMaxSemitones) ∧
    ((∃ h1 ∈ detectOrnamentHypotheses
        [⟨some "w0", 0, 100, 60⟩, ⟨some "w1", 100000, 100, 62⟩,
          ⟨some "w2", 200000, 100, 60⟩, ⟨some "w3", 300000, 100, 62⟩]
        (getDefaultOrnamentDetectionParams 480 none),
        h1.cls = OrnamentClass.trill ∧
        h1.principalNoteRef = "w0" ∧
        h1.memberNoteIds = ["w0", "w1", "w2", "w3"] ∧
        h1.confidence = trillBaseConfidence 4) ∧
      (∃ h2 ∈ detectOrnamentHypotheses
        [⟨some "w0", 0, 100, 60⟩, ⟨some "w1", 100000, 100, 62⟩,
          ⟨some "w2", 200000, 100, 60⟩, ⟨some "w3", 300000, 100, 62⟩]
        (getDefaultOrnamentDetectionParams 480 none),
        h2.cls = OrnamentClass.trill ∧
        h2.principalNoteRef = "w1" ∧
        h2.memberNoteIds = ["w0", "w1", "w2", "w3"] ∧
        h2.confidence = trillSecondConfidence 4)) := by
  have h := trill_run_detection_and_confidence
    [⟨some "w0", 0, 100, 60⟩, ⟨some "w1", 100000, 100, 62⟩,
      ⟨some "w2", 200000, 100, 60⟩, ⟨some "w3", 300000, 100, 62⟩]
    (getDefaultOrnamentDetectionParams 480 none) 0 3 60 62
    (by omega) (by decide) (by decide) (by decide)
    (by intro k hk0 hk3
        interval_cases k <;> decide)
  obtain ⟨⟨A, hAmem, hAa, hAb, hAc, hAd⟩, ⟨B, hBmem, hBa, hBb, hBc, hBd⟩⟩ := h.1
  refine ⟨⟨by omega, by decide, by decide⟩,
    ⟨A, hAmem, hAa, ?_, ?_, hAd⟩, ⟨B, hBmem, hBa, ?_, ?_, hBd⟩⟩
  · rw [hAb]
    decide
  · rw [hAc]
    decide
  · rw [hBb]
    decide
  · rw [hBc]
    decide

/-! ## Voice Distributor (`midiVoices.ts`) -/

/-- A note as handled by `distributeToVoices`: `idx` is the position of
the note in the input array and stands for JavaScript object identity
(the source shares note objects between its arrays and only ever adds
annotation fields to them; `midi`, `ticks` and `durationTicks` are
never written). -/
structure VNote where
  idx : ℕ
  midi : ℤ
  ticks : ℤ
  durationTicks : ℤ
deriving DecidableEq, Repr

/-- `getEnd` for distributor notes. -/
def vEnd (n : VNote) : ℤ := n.ticks + n.durationTicks

/-- The `ConversionOptions` fields read by `distributeToVoices`.
`voiceSeparationMaxVoices = 0` models the option being unset (the
source combines a truthiness check with `> 0`, so `0` and unset
behave identically). -/
structure VOptions where
  timeSignature : Option (ℤ × ℤ)
  voiceSeparationDisableChords : Bool
  voiceSeparationOverlapTolerance : ℤ
  voiceSeparationMaxVoices : ℤ
  voiceSeparationOrphanThreshold : Option Frac
deriving Repr

/-- `clamp` applied to already-rounded integer values. -/
def iClamp (value lo hi : ℤ) : ℤ := max lo (min hi value)

/-- `getLeapCost(...).cost`. -/
def getLeapCost (leap : ℤ) : Frac :=
  if leap ≤ 0 then 0
  else
    (Int.cast leap : Frac) +
      (if leap ≥ 10 then fr 18 10 else 0) +
      (if leap ≥ 12 then fr 12 10 else 0) +
      (if leap > 12 then (Int.cast (leap - 12) : Frac) * fr 115 100 else 0) +
      (if leap > 16 then fr 24 10 else 0)

/-- Comparator `(a, b) => getTicks(a) - getTicks(b)` (ascending onset). -/
def vTicksLe (a b : VNote) : Bool := decide (a.ticks ≤ b.ticks)

/-- Comparator of the `prev` lookup: descending end, ties descending
onset. -/
def prevLe (a b : VNote) : Bool :=
  decide (vEnd b < vEnd a) || (decide (vEnd b = vEnd a) && decide (b.ticks ≤ a.ticks))

/-- Comparator sorting high to low by pitch. -/
def midiDescLe (a b : VNote) : Bool := decide (b.midi ≤ a.midi)

/-- Comparator sorting by descending onset (neighbor lookups). -/
def ticksDescLe (a b : VNote) : Bool := decide (b.ticks ≤ a.ticks)

/-- `estimateTrackLeapScale`. -/
def estimateTrackLeapScale (track : List VNote) : Frac :=
  if track.length < 2 then 7
  else
    let sorted := sortBy vTicksLe track
    let recent := sorted.drop (sorted.length - 8)
    let leaps := (recent.zip recent.tail).map fun p => |p.2.midi - p.1.midi|
    jsClamp (listMean (leaps.map fun z => (Int.cast z : Frac))) 5 11

/-- `findPrevAndNextInVoice`. -/
def findPrevAndNext (track : List VNote) (nStart nEnd tol : ℤ) :
    Option VNote × Option VNote :=
  let effStart := nStart + tol
  let effEnd := nEnd - tol
  ((sortBy prevLe (track.filter fun e => decide (vEnd e ≤ effStart))).head?,
   (sortBy vTicksLe (track.filter fun e => decide (e.ticks ≥ effEnd))).head?)

/-- One timeline slice; `stop` models the source's `end` field. -/
structure VSlice where
  start : ℤ
  stop : ℤ
  active : List VNote
deriving DecidableEq, Repr

/-- A density area accumulated by `findAreasAtDensity`. -/
structure DensityArea where
  startTick : ℤ
  endTick : ℤ
  density : ℕ
  slices : List VSlice
deriving Repr

/-- One fold step of `findAreasAtDensity` over the slices. -/
def areaStep (eighthGap : Frac) (target : ℕ)
    (st : List DensityArea × Option DensityArea) (slice : VSlice) :
    List DensityArea × Option DensityArea :=
  if slice.active.length ≥ target then
    match st.2 with
    | none => (st.1, some ⟨slice.start, slice.stop, target, [slice]⟩)
    | some cur =>
        if (Int.cast (slice.start - cur.endTick) : Frac) ≤ eighthGap then
          (st.1, some { cur with endTick := slice.stop, slices := cur.slices ++ [slice] })
        else
          (st.1 ++ [cur], some ⟨slice.start, slice.stop, target, [slice]⟩)
  else st

/-- `findAreasAtDensity`. -/
def findAreasAtDensity (eighthGap : Frac) (slices : List VSlice) (target : ℕ) :
    List DensityArea :=
  let st := slices.foldl (areaStep eighthGap target) ([], none)
  match st.2 with
  | none => st.1
  | some cur => st.1 ++ [cur]

/-- `checkSustain`. -/
def checkSustain (ticksPerMeasure : Frac) (area : DensityArea) : Bool :=
  decide (ticksPerMeasure ≤ (Int.cast (area.endTick - area.startTick) : Frac))

/-- The `while (ceilingDensity >= 1)` search for the highest density
with a sustained area; returns `0` when none qualifies. -/
def ceilingFrom (eighthGap ticksPerMeasure : Frac) (slices : List VSlice) : ℕ → ℕ
  | 0 => 0
  | d + 1 =>
      if (findAreasAtDensity eighthGap slices (d + 1)).any (checkSustain ticksPerMeasure) then
        d + 1
      else ceilingFrom eighthGap ticksPerMeasure slices d

/-- State of Phase 1: the voice tracks and the identities (input
indices) of the notes already assigned. -/
structure P1State where
  tracks : List (List VNote)
  assigned : List ℕ

/-- Inner assignment loop of Phase 1 over the ranked (high-to-low)
top-`finalPolyphony` block of one slice. -/
def p1Assign (st : P1State) (ranked : List (ℕ × VNote)) : P1State :=
  ranked.foldl
    (fun st p =>
      if p.2.idx ∈ st.assigned then st
      else
        { tracks := st.tracks.set p.1 (st.tracks.getD p.1 [] ++ [p.2]),
          assigned := st.assigned ++ [p.2.idx] })
    st

/-- Phase-1 handling of one slice of a sustained area. -/
def p1Slice (fp : ℕ) (st : P1State) (slice : VSlice) : P1State :=
  let active := sortBy midiDescLe slice.active
  let unassigned := active.filter fun n => decide (n.idx ∉ st.assigned)
  if unassigned.length = 0 then st
  else if active.length ≥ fp then p1Assign st (active.take fp).enum
  else st

/-- The Phase-2 lookahead (`formsPhrase`): scan up to 9 upcoming notes,
stopping at a gap beyond one measure, for a strictly later onset. -/
def phraseGo (ticksPerMeasure : Frac) (nStart nEnd : ℤ) : List VNote → Bool
  | [] => false
  | f :: rest =>
      if ticksPerMeasure < (Int.cast (f.ticks - nEnd) : Frac) then false
      else if nStart < f.ticks then true
      else phraseGo ticksPerMeasure nStart nEnd rest

/-- Per-voice candidate cost in Phase 2; `none` when the voice is
skipped entirely (strict-monophony overlap or an orphan trigger).
`HARD_CROSSING_MARGIN = 1` is inlined. -/
def voiceCost (ppq : ℤ) (ticksPerMeasure : Frac) (fp : ℕ) (strict : Bool)
    (tol : ℤ) (tracks : List (List VNote)) (formsPhrase : Bool)
    (note : VNote) (v : ℕ) : Option Frac :=
  let track := tracks.getD v []
  let nPitch := note.midi
  let nStart := note.ticks
  let nEnd := vEnd note
  let overlap := track.any fun e =>
    let effEnd1 := max nStart (nEnd - tol)
    let effEnd2 := max e.ticks (vEnd e - tol)
    decide (nStart < effEnd2) && decide (effEnd1 > e.ticks)
  if overlap && strict then none
  else
    let pn := (findPrevAndNext track nStart nEnd tol).1
    let nx := (findPrevAndNext track nStart nEnd tol).2
    let upperTrack : Option (List VNote) :=
      if 0 < v then some (tracks.getD (v - 1) []) else none
    let lowerTrack : Option (List VNote) :=
      if v < fp - 1 then some (tracks.getD (v + 1) []) else none
    let upperNeighbor := upperTrack.bind fun t =>
      (sortBy ticksDescLe (t.filter fun n =>
        decide (n.ticks ≤ nStart) && decide (vEnd n > nStart))).head?
    let lowerNeighbor := lowerTrack.bind fun t =>
      (sortBy ticksDescLe (t.filter fun n =>
        decide (n.ticks ≤ nStart) && decide (vEnd n > nStart))).head?
    let leapFromPrev : ℤ := match pn with | some x => |x.midi - nPitch| | none => 0
    let leapToNext : ℤ := match nx with | some x => |x.midi - nPitch| | none => 0
    let intervalCost : Frac :=
      (if pn.isSome then getLeapCost leapFromPrev else 0) +
        (if nx.isSome then getLeapCost leapToNext else 0)
    let targetP : Frac :=
      84 - (Int.cast (v : ℤ) : Frac) *
        ((36 : Frac) / (Int.cast (max 1 ((fp : ℤ) - 1)) : Frac))
    let centroidCost := Frac.abs (targetP - (Int.cast nPitch : Frac)) * fr 5 100
    let isChord : Bool := match pn with
      | some x => decide (x.ticks = nStart) || decide (vEnd x > nStart)
      | none => false
    let trackLeapScale := estimateTrackLeapScale track
    let adaptiveLargeLeap : ℤ := iClamp (jsRound (trackLeapScale * fr 22 10)) 11 16
    let softMargin : ℤ := iClamp (jsRound (trackLeapScale / 2)) 2 5
    let gapPrevMeasures : Frac := match pn with
      | some x => (Int.cast (nStart - vEnd x) : Frac) / ticksPerMeasure
      | none => 3
    let gapNextMeasures : Frac := match nx with
      | some x => (Int.cast (x.ticks - nEnd) : Frac) / ticksPerMeasure
      | none => 3
    let noteDuration : ℤ := max 1 (nEnd - nStart)
    let shortBlipFactor :=
      jsClamp ((Int.cast (ppq - noteDuration) : Frac) / (Int.cast ppq : Frac)) 0 1
    let isolationFactor :=
      jsClamp (gapPrevMeasures - 1) 0 (fr 3 2) * jsClamp (gapNextMeasures - 1) 0 (fr 3 2)
    let phraseSupport : Frac := if formsPhrase then 1 else 0
    let continuityStress :=
      (Int.cast (leapFromPrev + leapToNext) : Frac) /
        (Int.cast (max 1 (adaptiveLargeLeap * 2)) : Frac)
    let wakeBlip := shortBlipFactor * isolationFactor * (1 - fr 7 10 * phraseSupport)
    let basePenalty : Frac :=
      if isChord then 10
      else
        wakeBlip * 120 +
          (if decide ((1 : Frac) < gapPrevMeasures) && decide (gapNextMeasures ≤ (1 : Frac)) then 18
           else if decide ((1 : Frac) < gapNextMeasures) && decide (gapPrevMeasures ≤ (1 : Frac)) then 5
           else 0)
    let trigWake := (!isChord) && decide (fr 95 100 < wakeBlip * continuityStress)
    let chordNeighbors := track.filter fun e =>
      decide (e.ticks ≤ nStart) && decide (vEnd e > nStart)
    let allChordPitches :=
      sortBy (fun a b => decide (a ≤ b)) (chordNeighbors.map VNote.midi ++ [nPitch])
    let span : ℤ :=
      if chordNeighbors.length > 0 then
        listMaxI (chordNeighbors.map VNote.midi ++ [nPitch]) -
          listMinI (chordNeighbors.map VNote.midi ++ [nPitch])
      else 0
    let maxInnerGap : ℤ :=
      if allChordPitches.length > 1 then
        listMaxI ((allChordPitches.zip allChordPitches.tail).map fun p => p.2 - p.1)
      else 0
    let chordMean := listMean (allChordPitches.map fun z => (Int.cast z : Frac))
    let centroidDrift := Frac.abs ((Int.cast nPitch : Frac) - chordMean)
    let chordSize : ℤ := allChordPitches.length
    let spanLimit : ℤ := 12 + max 0 (chordSize - 2) * 3
    let innerGapLimit : ℤ := 9
    let driftLimit : ℤ := 7
    let spanPressure :=
      jsClamp ((Int.cast span : Frac) / (Int.cast (max 1 spanLimit) : Frac) - 1) 0 2
    let spacingPressure :=
      jsClamp ((Int.cast maxInnerGap : Frac) / (Int.cast (max 1 innerGapLimit) : Frac) - 1) 0 2
    let driftPressure :=
      jsClamp (centroidDrift / (Int.cast (max 1 driftLimit) : Frac) - 1) 0 2
    let chordPressure :=
      spanPressure * fr 55 100 + spacingPressure * fr 25 100 + driftPressure * fr 2 10
    let chordPenalty : Frac := if isChord then chordPressure * 90 else 0
    let trigChord := isChord && decide (fr 9 10 < chordPressure)
    let prevLeapPressure :=
      jsClamp ((Int.cast leapFromPrev : Frac) / (Int.cast (max 1 adaptiveLargeLeap) : Frac)) 0 3
    let nextLeapPressure :=
      jsClamp ((Int.cast leapToNext : Frac) / (Int.cast (max 1 adaptiveLargeLeap) : Frac)) 0 3
    let pathP := prevLeapPressure * nextLeapPressure
    let trigPath := decide (fr 23 10 < pathP)
    let upperInfo : Frac × Bool := match upperNeighbor with
      | none => (0, false)
      | some un =>
          if nPitch ≥ un.midi - 1 then (0, true)
          else if nPitch ≥ un.midi - softMargin then
            let distance : ℤ := un.midi - 1 - nPitch
            let normalized := jsClamp
              (1 - (Int.cast distance : Frac) / (Int.cast (max 1 (softMargin - 1)) : Frac)) 0 1
            (8 + normalized * normalized * 18, false)
          else (0, false)
    let lowerInfo : Frac × Bool := match lowerNeighbor with
      | none => (0, false)
      | some ln =>
          if nPitch ≤ ln.midi + 1 then (0, true)
          else if nPitch ≤ ln.midi + softMargin then
            let distance : ℤ := nPitch - (ln.midi + 1)
            let normalized := jsClamp
              (1 - (Int.cast distance : Frac) / (Int.cast (max 1 (softMargin - 1)) : Frac)) 0 1
            (8 + normalized * normalized * 18, false)
          else (0, false)
    let overlappingUpper : List VNote := match upperTrack with
      | some t => t.filter fun n => decide (n.ticks < nEnd) && decide (vEnd n > nStart)
      | none => []
    let spanUpper : Frac :=
      if overlappingUpper.length > 0 then
        let minClear := listMinI (overlappingUpper.map fun n => n.midi - nPitch)
        if minClear < softMargin then
          let normalized := jsClamp
            (1 - (Int.cast (minClear - 1) : Frac) / (Int.cast (max 1 (softMargin - 1)) : Frac)) 0 1
          6 + normalized * normalized * 14
        else 0
      else 0
    let overlappingLower : List VNote := match lowerTrack with
      | some t => t.filter fun n => decide (n.ticks < nEnd) && decide (vEnd n > nStart)
      | none => []
    let spanLower : Frac :=
      if overlappingLower.length > 0 then
        let minClear := listMinI (overlappingLower.map fun n => nPitch - n.midi)
        if minClear < softMargin then
          let normalized := jsClamp
            (1 - (Int.cast (minClear - 1) : Frac) / (Int.cast (max 1 (softMargin - 1)) : Frac)) 0 1
          6 + normalized * normalized * 14
        else 0
      else 0
    if trigWake || trigChord || trigPath || upperInfo.2 || lowerInfo.2 then none
    else some (intervalCost + centroidCost +
      (basePenalty + chordPenalty + pathP * 20 +
        upperInfo.1 + lowerInfo.1 + spanUpper + spanLower))

/-- The running `(bestV, minCost)` update (`if (cost < minCost)`);
`minCost = none` models `Infinity`, `bestV = -1` models no choice. -/
def bestVoiceStep (cost : ℕ → Option Frac) (st : ℤ × Option Frac) (v : ℕ) :
    ℤ × Option Frac :=
  match cost v with
  | none => st
  | some c =>
      match st.2 with
      | none => ((v : ℤ), some c)
      | some mc => if c < mc then ((v : ℤ), some c) else st

/-- The Phase-2 voice loop. -/
def bestVoice (cost : ℕ → Option Frac) (fp : ℕ) : ℤ × Option Frac :=
  (List.range fp).foldl (bestVoiceStep cost) (-1, none)

/-- Phase 2: assign each remaining note to the cheapest admissible
voice, or orphan it. -/
def phase2Go (ppq : ℤ) (tpm : Frac) (fp : ℕ) (strict : Bool) (tol : ℤ)
    (threshold : Frac) :
    List VNote → List (List VNote) → List VNote →
      List (List VNote) × List VNote
  | [], tracks, orphans => (tracks, orphans)
  | note :: rest, tracks, orphans =>
      let formsPhrase := phraseGo tpm note.ticks (vEnd note) (rest.take 9)
      let bv := bestVoice
        (fun v => voiceCost ppq tpm fp strict tol tracks formsPhrase note v) fp
      let ok : Bool := (bv.1 != -1) &&
        (match bv.2 with
          | some mc => decide (mc ≤ threshold)
          | none => false)
      if ok then
        phase2Go ppq tpm fp strict tol threshold rest
          (tracks.set bv.1.toNat (tracks.getD bv.1.toNat [] ++ [note])) orphans
      else
        phase2Go ppq tpm fp strict tol threshold rest tracks (orphans ++ [note])

/-- Everything after the density ceiling has been fixed: Phase 1 over
the sustained areas at `fp`, Phase 2 over the rest, final sorts. -/
def distributeMain (ppq : ℤ) (tpm eighthGap : Frac) (fp : ℕ) (strict : Bool)
    (tol : ℤ) (threshold : Frac) (sortedNotes : List VNote)
    (slices : List VSlice) : List (List VNote) × List VNote :=
  let areas := findAreasAtDensity eighthGap slices fp
  let sustained := areas.filter (checkSustain tpm)
  let st1 := ((sustained.map DensityArea.slices).flatten).foldl (p1Slice fp)
    ⟨List.replicate fp [], []⟩
  let remaining := sortedNotes.filter fun n => decide (n.idx ∉ st1.assigned)
  let res := phase2Go ppq tpm fp strict tol threshold remaining st1.tracks []
  (res.1.map (sortBy vTicksLe), sortBy vTicksLe res.2)

/-- `distributeToVoices`.  Notes are carried with their input index as
identity; the returned pair is `(voices, orphans)`. -/
def distributeToVoices (notes : List VNote) (o : VOptions) (ppq : ℤ) :
    List (List VNote) × List VNote :=
  if notes.length = 0 then ([], [])
  else
    let tsNum : ℤ := match o.timeSignature with
      | some ts => if ts.1 = 0 then 4 else ts.1
      | none => 4
    let tsDen : ℤ := match o.timeSignature with
      | some ts => if ts.2 = 0 then 4 else ts.2
      | none => 4
    let tpm : Frac := (Int.cast (ppq * tsNum) : Frac) * ((4 : Frac) / (Int.cast tsDen : Frac))
    let eighthGap : Frac := (Int.cast ppq : Frac) / 2
    let strict := o.voiceSeparationDisableChords
    let tol := o.voiceSeparationOverlapTolerance
    let sortedNotes := sortBy vTicksLe notes
    let timeline := sortBy (fun a b => decide (a ≤ b))
      (uniqueFirst ((sortedNotes.map fun n => [n.ticks, vEnd n]).flatten))
    let slices : List VSlice := (timeline.zip timeline.tail).map fun p =>
      let mid : Frac := fr (p.1 + p.2) 2
      ⟨p.1, p.2, sortedNotes.filter fun n =>
        decide ((Int.cast n.ticks : Frac) ≤ mid) && decide (mid < (Int.cast (vEnd n) : Frac))⟩
    let maxGlobalDensity : ℕ := (slices.map fun s => s.active.length).foldl max 0
    if maxGlobalDensity = 0 then ([sortedNotes], [])
    else
      let ceiling := ceilingFrom eighthGap tpm slices maxGlobalDensity
      let fp0 : ℕ := if ceiling = 0 then max 1 (maxGlobalDensity - 1) else ceiling
      let fp : ℕ :=
        if 0 < o.voiceSeparationMaxVoices then o.voiceSeparationMaxVoices.toNat else fp0
      let threshold : Frac := match o.voiceSeparationOrphanThreshold with
        | some t => t
        | none => 120
      distributeMain ppq tpm eighthGap fp strict tol threshold sortedNotes slices

/-- The distributor applied to plain notes, numbering them by input
position. -/
def distributeRaw (notes : List (ℤ × ℤ × ℤ)) (o : VOptions) (ppq : ℤ) :
    List (List VNote) × List VNote :=
  distributeToVoices
    (notes.enum.map fun p => ⟨p.1, p.2.1, p.2.2.1, p.2.2.2⟩) o ppq

/-- C7: on the three-note input `(60,0,480), (64,240,480), (67,960,240)`
with `voiceSeparationMaxVoices = 1` and
`voiceSeparationDisableChords = true`, the distributor returns exactly
one voice holding the notes at ticks 0 and 960 (input positions 0 and
2) and exactly one orphan, the note at tick 240 (input position 1),
which cannot join the single monophonic voice without overlap. -/
theorem distribute_three_note_example :
    distributeRaw [(60, 0, 480), (64, 240, 480), (67, 960, 240)]
      { timeSignature := none,
        voiceSeparationDisableChords := true,
        voiceSeparationOverlapTolerance := 0,
        voiceSeparationMaxVoices := 1,
        voiceSeparationOrphanThreshold := none } 480 =
      ([[⟨0, 60, 0, 480⟩, ⟨2, 67, 960, 240⟩]], [⟨1, 64, 240, 480⟩]) := by
  decide


theorem flatten_set_append {α : Type} :
    ∀ (ls : List (List α)) (k : ℕ) (x : α), k < ls.length →
      (ls.set k (ls.getD k [] ++ [x])).flatten.Perm (x :: ls.flatten)
  | [], k, _, h => by simp at h
  | l :: ls, 0, x, _ => by
      have hget : (l :: ls).getD 0 [] = l := rfl
      rw [hget]
      show ((l ++ [x]) :: ls).flatten.Perm (x :: (l :: ls).flatten)
      rw [List.flatten_cons, List.flatten_cons, List.append_assoc]
      show (l ++ x :: ls.flatten).Perm (x :: (l ++ ls.flatten))
      exact List.perm_middle
  | l :: ls, k + 1, x, h => by
      have hget : (l :: ls).getD (k + 1) [] = ls.getD k [] := by
        rw [List.getD, List.getD, List.get?_eq_getElem?, List.get?_eq_getElem?,
          List.getElem?_cons_succ]
      rw [hget]
      show (l :: ls.set k (ls.getD k [] ++ [x])).flatten.Perm (x :: (l :: ls).flatten)
      rw [List.flatten_cons, List.flatten_cons]
      exact (List.Perm.append_left l
        (flatten_set_append ls k x (by simpa using h))).trans List.perm_middle

theorem filter_perm_of_insert :
    ∀ (l : List VNote) (s s2 : List ℕ) (a : ℕ) (note : VNote),
      (l.map VNote.idx).Nodup → note ∈ l → note.idx = a → a ∉ s →
      (∀ i, i ∈ s2 ↔ i ∈ s ∨ i = a) →
      (l.filter fun n => decide (n.idx ∈ s2)).Perm
        (note :: l.filter fun n => decide (n.idx ∈ s))
  | [], _, _, _, note, _, hmem, _, _, _ => absurd hmem (List.not_mem_nil note)
  | x :: xs, s, s2, a, note, hnd, hmem, hidx, hnot, hiff => by
      have hnd2 := hnd
      rw [List.map_cons, List.nodup_cons] at hnd2
      by_cases hxa : x.idx = a
      · have hxnote : note = x := by
          rcases List.mem_cons.mp hmem with h | h
          · exact h
          · exact absurd (List.mem_map.mpr ⟨note, h, hidx.trans hxa.symm⟩) hnd2.1
        have htail : ∀ n ∈ xs, (decide (n.idx ∈ s2)) = (decide (n.idx ∈ s)) := by
          intro n hn
          have hna : n.idx ≠ a := fun hcontra =>
            hnd2.1 (List.mem_map.mpr ⟨n, hn, hcontra.trans hxa.symm⟩)
          apply decide_eq_decide.mpr
          rw [hiff]
          constructor
          · rintro (h | h)
            · exact h
            · exact absurd h hna
          · exact Or.inl
        have h1 : (x :: xs).filter (fun n => decide (n.idx ∈ s2)) =
            x :: xs.filter (fun n => decide (n.idx ∈ s)) := by
          rw [List.filter_cons, if_pos (by simpa using (hiff x.idx).mpr (Or.inr hxa)),
            List.filter_congr htail]
        have h2 : (x :: xs).filter (fun n => decide (n.idx ∈ s)) =
            xs.filter (fun n => decide (n.idx ∈ s)) := by
          rw [List.filter_cons, if_neg (by simpa using hxa ▸ hnot)]
        rw [h1, h2, hxnote]
      · have hnotex : note ∈ xs := by
          rcases List.mem_cons.mp hmem with h | h
          · exact absurd (h ▸ hidx) hxa
          · exact h
        have ih := filter_perm_of_insert xs s s2 a note hnd2.2 hnotex hidx hnot hiff
        have hsame : (decide (x.idx ∈ s2)) = (decide (x.idx ∈ s)) := by
          apply decide_eq_decide.mpr
          rw [hiff]
          constructor
          · rintro (h | h)
            · exact h
            · exact absurd h hxa
          · exact Or.inl
        rw [List.filter_cons, List.filter_cons, hsame]
        by_cases hxs : x.idx ∈ s
        · have hc : (decide (x.idx ∈ s)) = true := by simpa using hxs
          rw [if_pos hc, if_pos hc]
          exact (ih.cons x).trans (List.Perm.swap note x _)
        · have hc : ¬ (decide (x.idx ∈ s)) = true := by simpa using hxs
          rw [if_neg hc, if_neg hc]
          exact ih

theorem mem_enum_facts {α : Type} (l : List α) (p : ℕ × α) (h : p ∈ l.enum) :
    p.1 < l.length ∧ p.2 ∈ l ∧ l[p.1]? = some p.2 := by
  have hg : l[p.1]? = some p.2 := (List.mem_enum_iff_getElem? ).mp h
  have hlt : p.1 < l.length := by
    by_contra hge
    rw [List.getElem?_eq_none (by omega)] at hg
    exact Option.noConfusion hg
  refine ⟨hlt, ?_, hg⟩
  have : l[p.1] = p.2 := by
    have := List.getElem?_eq_some_iff.mp hg
    rcases this with ⟨h1, h2⟩
    exact h2
  rw [← this]
  exact List.getElem_mem hlt

theorem p1Assign_inv (sorted : List VNote) (hnd : (sorted.map VNote.idx).Nodup) :
    ∀ (ranked : List (ℕ × VNote)) (st : P1State),
      (∀ p ∈ ranked, p.2 ∈ sorted ∧ p.1 < st.tracks.length) →
      st.tracks.flatten.Perm (sorted.filter fun n => decide (n.idx ∈ st.assigned)) →
      (p1Assign st ranked).tracks.length = st.tracks.length ∧
        (p1Assign st ranked).tracks.flatten.Perm
          (sorted.filter fun n => decide (n.idx ∈ (p1Assign st ranked).assigned))
  | [], st, _, hperm => ⟨rfl, hperm⟩
  | p :: ranked, st, hsub, hperm => by
      by_cases hin : p.2.idx ∈ st.assigned
      · have hstep : p1Assign st (p :: ranked) = p1Assign st ranked := by
          rw [p1Assign, p1Assign, List.foldl_cons, if_pos hin]
        rw [hstep]
        exact p1Assign_inv sorted hnd ranked st
          (fun q hq => hsub q (List.mem_cons_of_mem p hq)) hperm
      · have hstep : p1Assign st (p :: ranked) =
            p1Assign { tracks := st.tracks.set p.1 (st.tracks.getD p.1 [] ++ [p.2]),
                       assigned := st.assigned ++ [p.2.idx] } ranked := by
          rw [p1Assign, p1Assign, List.foldl_cons, if_neg hin]
        rw [hstep]
        have hlt : p.1 < st.tracks.length := (hsub p (List.mem_cons_self p ranked)).2
        have hlen : (st.tracks.set p.1 (st.tracks.getD p.1 [] ++ [p.2])).length =
            st.tracks.length := by simp
        have hperm2 : (st.tracks.set p.1 (st.tracks.getD p.1 [] ++ [p.2])).flatten.Perm
            (sorted.filter fun n => decide (n.idx ∈ st.assigned ++ [p.2.idx])) := by
          refine (flatten_set_append st.tracks p.1 p.2 hlt).trans ?_
          refine (List.Perm.cons p.2 hperm).trans ?_
          refine (filter_perm_of_insert sorted st.assigned (st.assigned ++ [p.2.idx])
            p.2.idx p.2 hnd (hsub p (List.mem_cons_self p ranked)).1 rfl hin ?_).symm
          intro i
          simp [List.mem_append]
        have := p1Assign_inv sorted hnd ranked
          { tracks := st.tracks.set p.1 (st.tracks.getD p.1 [] ++ [p.2]),
            assigned := st.assigned ++ [p.2.idx] }
          (fun q hq => ⟨(hsub q (List.mem_cons_of_mem p hq)).1,
            by rw [hlen]; exact (hsub q (List.mem_cons_of_mem p hq)).2⟩)
          hperm2
        exact ⟨this.1.trans hlen, this.2⟩

theorem p1Slice_inv (fp : ℕ) (sorted : List VNote)
    (hnd : (sorted.map VNote.idx).Nodup) (slice : VSlice) (st : P1State)
    (hsl : ∀ n ∈ slice.active, n ∈ sorted)
    (hlen : st.tracks.length = fp)
    (hperm : st.tracks.flatten.Perm
      (sorted.filter fun n => decide (n.idx ∈ st.assigned))) :
    (p1Slice fp st slice).tracks.length = fp ∧
      (p1Slice fp st slice).tracks.flatten.Perm
        (sorted.filter fun n => decide (n.idx ∈ (p1Slice fp st slice).assigned)) := by
  rw [p1Slice]
  by_cases h1 : ((sortBy midiDescLe slice.active).filter
      fun n => decide (n.idx ∉ st.assigned)).length = 0
  · rw [if_pos h1]
    exact ⟨hlen, hperm⟩
  · rw [if_neg h1]
    by_cases h2 : (sortBy midiDescLe slice.active).length ≥ fp
    · rw [if_pos h2]
      have hsub : ∀ q ∈ ((sortBy midiDescLe slice.active).take fp).enum,
          q.2 ∈ sorted ∧ q.1 < st.tracks.length := by
        intro q hq
        have hfacts := mem_enum_facts _ q hq
        constructor
        · exact hsl q.2 ((sortBy_mem midiDescLe slice.active q.2).mp
            (List.mem_of_mem_take hfacts.2.1))
        · have : q.1 < ((sortBy midiDescLe slice.active).take fp).length := hfacts.1
          rw [List.length_take] at this
          omega
      have := p1Assign_inv sorted hnd ((sortBy midiDescLe slice.active).take fp).enum
        st hsub hperm
      exact ⟨this.1.trans hlen, this.2⟩
    · rw [if_neg h2]
      exact ⟨hlen, hperm⟩

theorem p1Fold_inv (fp : ℕ) (sorted : List VNote)
    (hnd : (sorted.map VNote.idx).Nodup) :
    ∀ (sls : List VSlice) (st : P1State),
      (∀ sl ∈ sls, ∀ n ∈ sl.active, n ∈ sorted) →
      st.tracks.length = fp →
      st.tracks.flatten.Perm (sorted.filter fun n => decide (n.idx ∈ st.assigned)) →
      (sls.foldl (p1Slice fp) st).tracks.length = fp ∧
        (sls.foldl (p1Slice fp) st).tracks.flatten.Perm
          (sorted.filter fun n => decide (n.idx ∈ (sls.foldl (p1Slice fp) st).assigned))
  | [], st, _, hlen, hperm => ⟨hlen, hperm⟩
  | sl :: sls, st, hsub, hlen, hperm => by
      rw [List.foldl_cons]
      have hstep := p1Slice_inv fp sorted hnd sl st
        (hsub sl (List.mem_cons_self sl sls)) hlen hperm
      exact p1Fold_inv fp sorted hnd sls (p1Slice fp st sl)
        (fun q hq => hsub q (List.mem_cons_of_mem sl hq)) hstep.1 hstep.2

theorem bestVoice_fold_bound (cost : ℕ → Option Frac) (n : ℕ) :
    ∀ (l : List ℕ) (st : ℤ × Option Frac),
      (∀ v ∈ l, v < n) → (st.1 = -1 ∨ (0 ≤ st.1 ∧ st.1 < (n : ℤ))) →
      ((l.foldl (bestVoiceStep cost) st).1 = -1 ∨
        (0 ≤ (l.foldl (bestVoiceStep cost) st).1 ∧
          (l.foldl (bestVoiceStep cost) st).1 < (n : ℤ)))
  | [], st, _, hst => hst
  | v :: l, st, hl, hst => by
      rw [List.foldl_cons]
      refine bestVoice_fold_bound cost n l (bestVoiceStep cost st v)
        (fun w hw => hl w (List.mem_cons_of_mem v hw)) ?_
      have hv : v < n := hl v (List.mem_cons_self v l)
      rw [bestVoiceStep]
      cases cost v with
      | none => exact hst
      | some c =>
          dsimp only
          cases st.2 with
          | none =>
              dsimp only
              right
              constructor
              · exact Int.ofNat_nonneg v
              · show (v : ℤ) < (n : ℤ)
                exact_mod_cast hv
          | some mc =>
              dsimp only
              by_cases hc : c < mc
              · rw [if_pos hc]
                right
                refine ⟨Int.ofNat_nonneg v, ?_⟩
                show (v : ℤ) < (n : ℤ)
                exact_mod_cast hv
              · rw [if_neg hc]
                exact hst

theorem bestVoice_bound (cost : ℕ → Option Frac) (fp : ℕ) :
    (bestVoice cost fp).1 = -1 ∨
      (0 ≤ (bestVoice cost fp).1 ∧ (bestVoice cost fp).1 < (fp : ℤ)) := by
  rw [bestVoice]
  exact bestVoice_fold_bound cost fp (List.range fp) (-1, none)
    (fun v hv => List.mem_range.mp hv) (Or.inl rfl)

theorem phase2Go_perm (ppq : ℤ) (tpm : Frac) (fp : ℕ) (strict : Bool) (tol : ℤ)
    (threshold : Frac) :
    ∀ (rest : List VNote) (tracks : List (List VNote)) (orphans : List VNote),
      tracks.length = fp →
      (phase2Go ppq tpm fp strict tol threshold rest tracks orphans).1.length = fp ∧
        ((phase2Go ppq tpm fp strict tol threshold rest tracks orphans).1.flatten ++
          (phase2Go ppq tpm fp strict tol threshold rest tracks orphans).2).Perm
          ((tracks.flatten ++ orphans) ++ rest)
  | [], tracks, orphans, hlen => by
      rw [phase2Go, List.append_nil]
      exact ⟨hlen, List.Perm.refl _⟩
  | note :: rest, tracks, orphans, hlen => by
      rw [phase2Go]
      set bv := bestVoice
        (fun v => voiceCost ppq tpm fp strict tol tracks
          (phraseGo tpm note.ticks (vEnd note) (rest.take 9)) note v) fp with hbv
      by_cases hok : ((bv.1 != -1) &&
          (match bv.2 with
            | some mc => decide (mc ≤ threshold)
            | none => false)) = true
      · rw [if_pos hok]
        have hne : bv.1 ≠ -1 := by
          have := (Bool.and_eq_true _ _).mp hok
          simpa using this.1
        have hrange : 0 ≤ bv.1 ∧ bv.1 < (fp : ℤ) := by
          rcases bestVoice_bound
            (fun v => voiceCost ppq tpm fp strict tol tracks
              (phraseGo tpm note.ticks (vEnd note) (rest.take 9)) note v) fp with h | h
          · exact absurd (hbv ▸ h) hne
          · exact hbv ▸ h
        have hlt : bv.1.toNat < tracks.length := by
          rw [hlen]
          omega
        have hih := phase2Go_perm ppq tpm fp strict tol threshold rest
          (tracks.set bv.1.toNat (tracks.getD bv.1.toNat [] ++ [note])) orphans
          (by rw [List.length_set]; exact hlen)
        refine ⟨hih.1, hih.2.trans ?_⟩
        have hfl := flatten_set_append tracks bv.1.toNat note hlt
        refine (List.Perm.append_right rest (List.Perm.append_right orphans hfl)).trans ?_
        have : ((note :: tracks.flatten) ++ orphans) ++ rest =
            note :: ((tracks.flatten ++ orphans) ++ rest) := by simp
        rw [this]
        exact (List.perm_middle.symm)
      · rw [if_neg hok]
        have hih := phase2Go_perm ppq tpm fp strict tol threshold rest
          tracks (orphans ++ [note]) hlen
        refine ⟨hih.1, hih.2.trans ?_⟩
        have : (tracks.flatten ++ (orphans ++ [note])) ++ rest =
            (tracks.flatten ++ orphans) ++ (note :: rest) := by simp
        rw [this]

theorem flatten_map_sortBy_perm (le : VNote → VNote → Bool) :
    ∀ (ls : List (List VNote)), ((ls.map (sortBy le)).flatten).Perm ls.flatten
  | [] => List.Perm.refl _
  | l :: ls => by
      rw [List.map_cons, List.flatten_cons, List.flatten_cons]
      exact List.Perm.append (sortBy_perm le l) (flatten_map_sortBy_perm le ls)

theorem areaFold_sub (g : Frac) (t : ℕ) (U : List VSlice) :
    ∀ (l : List VSlice) (st : List DensityArea × Option DensityArea),
      (∀ s ∈ l, s ∈ U) →
      (∀ a ∈ st.1, ∀ s ∈ a.slices, s ∈ U) →
      (∀ c, st.2 = some c → ∀ s ∈ c.slices, s ∈ U) →
      (∀ a ∈ (l.foldl (areaStep g t) st).1, ∀ s ∈ a.slices, s ∈ U) ∧
        (∀ c, (l.foldl (areaStep g t) st).2 = some c → ∀ s ∈ c.slices, s ∈ U)
  | [], st, _, h1, h2 => ⟨h1, h2⟩
  | sl :: l, st, hl, h1, h2 => by
      rw [List.foldl_cons]
      refine areaFold_sub g t U l (areaStep g t st sl)
        (fun s hs => hl s (List.mem_cons_of_mem sl hs)) ?_ ?_
      all_goals
        have hslU : sl ∈ U := hl sl (List.mem_cons_self sl l)
        rw [areaStep]
        by_cases hd : sl.active.length ≥ t
      · rw [if_pos hd]
        cases hst : st.2 with
        | none =>
            dsimp only
            exact h1
        | some cur =>
            dsimp only
            by_cases hg : (Int.cast (sl.start - cur.endTick) : Frac) ≤ g
            · rw [if_pos hg]
              exact h1
            · rw [if_neg hg]
              intro a ha
              rcases List.mem_append.mp ha with h | h
              · exact h1 a h
              · intro s hs
                rw [List.mem_singleton.mp h] at hs
                exact h2 cur hst s hs
      · rw [if_neg hd]
        exact h1
      · rw [if_pos hd]
        cases hst : st.2 with
        | none =>
            dsimp only
            intro c hc s hs
            rw [← Option.some_inj.mp hc] at hs
            rcases List.mem_singleton.mp hs with rfl
            exact hslU
        | some cur =>
            dsimp only
            by_cases hg : (Int.cast (sl.start - cur.endTick) : Frac) ≤ g
            · rw [if_pos hg]
              intro c hc s hs
              rw [← Option.some_inj.mp hc] at hs
              rcases List.mem_append.mp hs with h | h
              · exact h2 cur hst s h
              · rw [List.mem_singleton.mp h]
                exact hslU
            · rw [if_neg hg]
              intro c hc s hs
              rw [← Option.some_inj.mp hc] at hs
              rcases List.mem_singleton.mp hs with rfl
              exact hslU
      · rw [if_neg hd]
        exact h2

theorem findAreas_slices_sub (g : Frac) (slices : List VSlice) (t : ℕ) :
    ∀ a ∈ findAreasAtDensity g slices t, ∀ s ∈ a.slices, s ∈ slices := by
  rw [findAreasAtDensity]
  have h := areaFold_sub g t slices slices ([], none) (fun s hs => hs)
    (fun a ha => absurd ha (List.not_mem_nil a))
    (fun c hc => Option.noConfusion hc)
  cases hst : (slices.foldl (areaStep g t) ([], none)).2 with
  | none =>
      exact h.1
  | some cur =>
      intro a ha
      rcases List.mem_append.mp ha with hm | hm
      · exact h.1 a hm
      · rw [List.mem_singleton.mp hm]
        exact h.2 cur hst

theorem flatten_replicate_nil (fp : ℕ) :
    (List.replicate fp ([] : List VNote)).flatten = [] := by
  induction fp with
  | zero => rfl
  | succ n ih => rw [List.replicate_succ, List.flatten_cons, List.nil_append, ih]

theorem distributeMain_perm (ppq : ℤ) (tpm eighthGap : Frac) (fp : ℕ)
    (strict : Bool) (tol : ℤ) (threshold : Frac) (sortedNotes : List VNote)
    (slices : List VSlice)
    (hnd : (sortedNotes.map VNote.idx).Nodup)
    (hslices : ∀ sl ∈ slices, ∀ n ∈ sl.active, n ∈ sortedNotes) :
    ((distributeMain ppq tpm eighthGap fp strict tol threshold sortedNotes
        slices).1.flatten ++
      (distributeMain ppq tpm eighthGap fp strict tol threshold sortedNotes
        slices).2).Perm sortedNotes := by
  simp only [distributeMain]
  set sls := (((findAreasAtDensity eighthGap slices fp).filter
    (checkSustain tpm)).map DensityArea.slices).flatten with hsls
  have hsust : ∀ sl ∈ sls, ∀ n ∈ sl.active, n ∈ sortedNotes := by
    intro sl hsl
    rw [hsls] at hsl
    rcases List.mem_flatten.mp hsl with ⟨l, hl, hsl2⟩
    rcases List.mem_map.mp hl with ⟨a, ha, rfl⟩
    have ha2 := List.mem_filter.mp ha
    exact hslices sl (findAreas_slices_sub eighthGap slices fp a ha2.1 sl hsl2)
  have hinit_perm : (List.replicate fp ([] : List VNote)).flatten.Perm
      (sortedNotes.filter fun n => decide (n.idx ∈ ([] : List ℕ))) := by
    rw [flatten_replicate_nil]
    have : (sortedNotes.filter fun n => decide (n.idx ∈ ([] : List ℕ))) = [] := by
      simp
    rw [this]
  have hp1 := p1Fold_inv fp sortedNotes hnd sls ⟨List.replicate fp [], []⟩
    hsust (List.length_replicate fp []) hinit_perm
  set st1 := sls.foldl (p1Slice fp) ⟨List.replicate fp [], []⟩ with hst1
  have hp2 := phase2Go_perm ppq tpm fp strict tol threshold
    (sortedNotes.filter fun n => decide (n.idx ∉ st1.assigned)) st1.tracks [] hp1.1
  refine (List.Perm.append
    (flatten_map_sortBy_perm vTicksLe _) (sortBy_perm vTicksLe _)).trans ?_
  refine hp2.2.trans ?_
  rw [List.append_nil]
  refine (List.Perm.append_right _ hp1.2).trans ?_
  have hneg : (sortedNotes.filter fun n => decide (n.idx ∉ st1.assigned)) =
      sortedNotes.filter fun n => !(decide (n.idx ∈ st1.assigned)) := by
    apply List.filter_congr
    intro n _
    rw [decide_not]
  rw [hneg]
  exact List.filter_append_perm _ sortedNotes

theorem distribute_perm (notes : List VNote) (o : VOptions) (ppq : ℤ)
    (hnd : (notes.map VNote.idx).Nodup) :
    ((distributeToVoices notes o ppq).1.flatten ++
      (distributeToVoices notes o ppq).2).Perm notes := by
  simp only [distributeToVoices]
  split_ifs with h0 hmg
  · have : notes = [] := List.length_eq_zero.mp h0
    rw [this]
    exact List.Perm.refl _
  · rw [List.flatten_cons, List.flatten_nil, List.append_nil, List.append_nil]
    exact sortBy_perm vTicksLe notes
  all_goals
    refine (distributeMain_perm _ _ _ _ _ _ _ _ _ ?_ ?_).trans
      (sortBy_perm vTicksLe notes)
  all_goals
    first
      | exact (((sortBy_perm vTicksLe notes).map VNote.idx).nodup_iff).mpr hnd
      | (intro sl hsl n hn
         rcases List.mem_map.mp hsl with ⟨p, _, rfl⟩
         exact (List.mem_filter.mp hn).1)

/-- C1: the Shadow Quantizer returns exactly as many notes as it
received, and the Voice Distributor conserves notes: the voice sizes
plus the orphan count add up to the input count, and the input
positions of the distributed notes (voices and orphans together) are a
permutation of all input positions — no note is deleted or
duplicated. -/
theorem conservation_quantizer_and_distributor
    (qnotes : List RawNote) (qppq : ℤ) (primary secondary : RhythmRule)
    (notes : List (ℤ × ℤ × ℤ)) (o : VOptions) (ppq : ℤ) :
    (applyShadowQuantization qnotes qppq primary secondary).length = qnotes.length ∧
    ((distributeRaw notes o ppq).1.map List.length).sum +
        (distributeRaw notes o ppq).2.length = notes.length ∧
    (((distributeRaw notes o ppq).1.flatten ++
        (distributeRaw notes o ppq).2).map VNote.idx).Perm
      (List.range notes.length) := by
  have hmap : (notes.enum.map fun p =>
      (⟨p.1, p.2.1, p.2.2.1, p.2.2.2⟩ : VNote)).map VNote.idx =
      List.range notes.length := by
    rw [List.map_map]
    have h : (VNote.idx ∘ fun p : ℕ × ℤ × ℤ × ℤ =>
        (⟨p.1, p.2.1, p.2.2.1, p.2.2.2⟩ : VNote)) = Prod.fst := rfl
    rw [h, List.enum_map_fst]
  have hperm := distribute_perm
    (notes.enum.map fun p => (⟨p.1, p.2.1, p.2.2.1, p.2.2.2⟩ : VNote)) o ppq
    (by rw [hmap]; exact List.nodup_range _)
  have hdr : distributeRaw notes o ppq = distributeToVoices
      (notes.enum.map fun p => (⟨p.1, p.2.1, p.2.2.1, p.2.2.2⟩ : VNote)) o ppq := rfl
  refine ⟨applyShadowQuantization_length qnotes qppq primary secondary, ?_, ?_⟩
  · have hlen := hperm.length_eq
    rw [List.length_append, List.length_flatten, List.length_map,
      List.enum_length] at hlen
    rw [hdr]
    exact hlen
  · rw [hdr]
    have := hperm.map VNote.idx
    rw [hmap] at this
    exact this

/-- C9: every note the distributor places in the orphans list retains
its original pitch, onset and duration: looking the orphan's input
position up in the input list yields exactly the orphan's `midi`,
`ticks` and `durationTicks`. -/
theorem orphan_retains_fields (notes : List (ℤ × ℤ × ℤ)) (o : VOptions) (ppq : ℤ) :
    ∀ orphan ∈ (distributeRaw notes o ppq).2,
      notes[orphan.idx]? = some (orphan.midi, orphan.ticks, orphan.durationTicks) := by
  intro orphan hmem
  have hperm := distribute_perm
    (notes.enum.map fun p => (⟨p.1, p.2.1, p.2.2.1, p.2.2.2⟩ : VNote)) o ppq
    (by
      rw [List.map_map]
      have h : (VNote.idx ∘ fun p : ℕ × ℤ × ℤ × ℤ =>
          (⟨p.1, p.2.1, p.2.2.1, p.2.2.2⟩ : VNote)) = Prod.fst := rfl
      rw [h, List.enum_map_fst]
      exact List.nodup_range _)
  have hdr : distributeRaw notes o ppq = distributeToVoices
      (notes.enum.map fun p => (⟨p.1, p.2.1, p.2.2.1, p.2.2.2⟩ : VNote)) o ppq := rfl
  rw [hdr] at hmem
  have hin : orphan ∈ notes.enum.map fun p =>
      (⟨p.1, p.2.1, p.2.2.1, p.2.2.2⟩ : VNote) :=
    hperm.mem_iff.mp (List.mem_append_right _ hmem)
  rcases List.mem_map.mp hin with ⟨p, hp, rfl⟩
  have hfacts := mem_enum_facts notes p hp
  exact hfacts.2.2

/-- Witness for C9 at the three-note fixture: the orphaned note (input
position 1) still carries pitch 64, onset 240 and duration 480. -/
theorem orphan_retains_fields_witness :
    (⟨1, 64, 240, 480⟩ : VNote) ∈ (distributeRaw
      [(60, 0, 480), (64, 240, 480), (67, 960, 240)]
      { timeSignature := none,
        voiceSeparationDisableChords := true,
        voiceSeparationOverlapTolerance := 0,
        voiceSeparationMaxVoices := 1,
        voiceSeparationOrphanThreshold := none } 480).2 ∧
    ([(60, 0, 480), (64, 240, 480), (67, 960, 240)] :
        List (ℤ × ℤ × ℤ))[(1 : ℕ)]? = some (64, 240, 480) :=
  ⟨by decide,
    orphan_retains_fields [(60, 0, 480), (64, 240, 480), (67, 960, 240)]
      { timeSignature := none,
        voiceSeparationDisableChords := true,
        voiceSeparationOverlapTolerance := 0,
        voiceSeparationMaxVoices := 1,
        voiceSeparationOrphanThreshold := none } 480
      ⟨1, 64, 240, 480⟩ (by decide)⟩
